import Mathlib

/-!
# Zootopia match-3: board, match detection and resolution state machine

A shallow embedding of `src/games/zootopia_match3/game.js` (namespace `Match3`),
followed by the terrain layer of `src/games/endless_glide/game.js` (namespace
`Glide`).

Conventions of the embedding.

* JavaScript numbers that carry time, position or opacity (`dt`, `waitTimer`,
  `x`, `y`, `alpha`, `scale`) are exact rationals; grid coordinates and kinds are
  naturals, a tile's stored `row`/`col` are integers (the constructor is called
  with row `-1` in `refillTop`).
* `CONFIG.GRID_SIZE` is 9, so the grid is a total map from `Fin 9 × Fin 9` to
  `Tile | null`; `null` is `none`.
* Tiles are heap objects in the source. Every tile object sits in at most one
  grid cell (cells are only created, exchanged, moved or cleared), so mutating a
  tile through its cell is the same as replacing the value stored in that cell.
* `Math.floor(Math.random() * CHARACTERS.length)` is drawn from an explicit
  stream of draws, consumed in program order.
* Rendering, audio, particles and DOM wiring do not influence the fields
  modelled here and are left out.
-/

namespace Match3

/-! ## Configuration -/

/-- The constant `CONFIG.TILE_SIZE`. -/
def TILE_SIZE : ℚ := 60
/-- The getter `CONFIG.OFFSET_X`, `(WIDTH - GRID_SIZE * TILE_SIZE) / 2`. -/
def OFFSET_X : ℚ := (600 - 9 * TILE_SIZE) / 2
/-- The getter `CONFIG.OFFSET_Y`. -/
def OFFSET_Y : ℚ := 150
/-- The constant `CONFIG.ANIMATION_TIME` (0.5). -/
def ANIMATION_TIME : ℚ := 1 / 2
/-- The constant `CONFIG.FADE_TIME` (0.4). -/
def FADE_TIME : ℚ := 2 / 5

/-! ## Tiles -/

/-- The fields of `class Tile`. -/
structure Tile where
  row : Int
  col : Int
  charIndex : Nat
  x : ℚ
  y : ℚ
  alpha : ℚ
  scale : ℚ
  isMoving : Bool
  isFading : Bool
deriving DecidableEq

/-- The method `Tile.getPosX`. -/
def getPosX (col : Int) : ℚ := OFFSET_X + col * TILE_SIZE
/-- The method `Tile.getPosY`. -/
def getPosY (row : Int) : ℚ := OFFSET_Y + row * TILE_SIZE

/-- The constructor `new Tile(row, col, charIndex)`. -/
def Tile.new (row col : Int) (charIndex : Nat) : Tile :=
  { row := row, col := col, charIndex := charIndex,
    x := getPosX col, y := getPosY row,
    alpha := 1, scale := 1, isMoving := false, isFading := false }

/-- The method `Tile.update(dt)`: slide towards the target position, then fade. -/
def Tile.update (t : Tile) (dt : ℚ) : Tile :=
  let targetX := getPosX t.col
  let targetY := getPosY t.row
  let dx := targetX - t.x
  let dy := targetY - t.y
  let t1 : Tile :=
    if |dx| > 1 / 10 ∨ |dy| > 1 / 10 then
      { t with x := t.x + dx * (dt * 10), y := t.y + dy * (dt * 10), isMoving := true }
    else
      { t with x := targetX, y := targetY, isMoving := false }
  if t1.isFading then
    let a := t1.alpha - (1 / FADE_TIME) * dt
    let s := t1.scale - (1 / FADE_TIME) * dt
    { t1 with alpha := if a < 0 then 0 else a, scale := if s < 0 then 0 else s }
  else t1

/-! ## The grid -/

/-- The 9×9 grid `this.grid`: the content of each of its cells; `none` is `null`. -/
structure Grid where
  cell : Fin 9 → Fin 9 → Option Tile

instance : CoeFun Grid (fun _ => Fin 9 → Fin 9 → Option Tile) := ⟨Grid.cell⟩

/-- The all-empty grid `Array(9).fill().map(() => Array(9).fill(null))`. -/
def Grid.empty : Grid := ⟨fun _ _ => none⟩

/-- Read `grid[r][c]` at natural-number indices. The loops of the source only
read inside the grid; outside it the read yields no tile. -/
def Grid.at (g : Grid) (r c : Nat) : Option Tile :=
  if hr : r < 9 then (if hc : c < 9 then g ⟨r, hr⟩ ⟨c, hc⟩ else none) else none

/-- Write `grid[r][c] = v` at natural-number indices (the source only writes
inside the grid). -/
def Grid.set (g : Grid) (r c : Nat) (v : Option Tile) : Grid :=
  ⟨fun r' c' => if r'.val = r ∧ c'.val = c then v else g r' c'⟩

/-- The body of a counting loop `for (let i = 0; i < n; i++)`. -/
def forUp {σ : Type} (n : Nat) (body : σ → Nat → σ) (s : σ) : σ :=
  (List.range n).foldl body s

/-- The body of a counting loop `for (let i = n - 1; i >= 0; i--)`. -/
def forDown {σ : Type} (body : σ → Nat → σ) : Nat → σ → σ
  | 0, s => s
  | n + 1, s => forDown body n (body s n)

/-! ## Match detection -/

/-- The call `matches.add(key)` on a JavaScript `Set`, kept in insertion order. The key
string "r,c" is represented by the pair `(r, c)`. -/
def setAdd (m : List (Nat × Nat)) (p : Nat × Nat) : List (Nat × Nat) :=
  if p ∈ m then m else m ++ [p]

/-- The test made on one window of three cells: none of them is empty and the
first has the kind of the second and of the third. -/
def isRun (a b d : Option Tile) : Bool :=
  match a, b, d with
  | some ta, some tb, some td =>
      decide (ta.charIndex = tb.charIndex ∧ ta.charIndex = td.charIndex)
  | _, _, _ => false

/-- The method `Game.getMatches()`. -/
def getMatches (g : Grid) : List (Nat × Nat) :=
  -- Horizontal
  let m := forUp 9 (fun m r =>
    forUp 7 (fun m c =>
      if isRun (g.at r c) (g.at r (c + 1)) (g.at r (c + 2)) then
        setAdd (setAdd (setAdd m (r, c)) (r, c + 1)) (r, c + 2)
      else m) m) []
  -- Vertical
  forUp 9 (fun m c =>
    forUp 7 (fun m r =>
      if isRun (g.at r c) (g.at (r + 1) c) (g.at (r + 2) c) then
        setAdd (setAdd (setAdd m (r, c)) (r + 1, c)) (r + 2, c)
      else m) m) m

/-! ## Board initialisation -/

/-- The stream of results of `Math.floor(Math.random() * CHARACTERS.length)`. -/
abbrev Rand := Nat → Nat

/-- The stream after its first draw has been consumed. -/
def Rand.rest (rnd : Rand) : Rand := fun i => rnd (i + 1)

/-- Does the cell hold a tile of kind `k`:
`this.grid[r][c] && this.grid[r][c].charIndex === k`. -/
def hasKind (o : Option Tile) (k : Nat) : Bool :=
  match o with
  | some t => decide (t.charIndex = k)
  | none => false

/-- The method `Game.wouldMatch(r, c, charIdx)`. -/
def wouldMatch (g : Grid) (r c charIdx : Nat) : Bool :=
  if c ≥ 2 ∧ hasKind (g.at r (c - 1)) charIdx ∧ hasKind (g.at r (c - 2)) charIdx then true
  else if r ≥ 2 ∧ hasKind (g.at (r - 1) c) charIdx ∧ hasKind (g.at (r - 2) c) charIdx then true
  else false

/-- The `do { charIdx = random } while (wouldMatch(r, c, charIdx))` loop, run
for at most `fuel` draws; `none` when the loop has not left by then. -/
def pickKind (g : Grid) (r c : Nat) : Nat → Rand → Option (Nat × Rand)
  | 0, _ => none
  | fuel + 1, rnd =>
      if wouldMatch g r c (rnd 0) then pickKind g r c fuel rnd.rest
      else some (rnd 0, rnd.rest)

/-- The body of the inner loop of `initBoard` at cell `(r, c)`: draw a kind that
`wouldMatch` accepts and place a new tile. The state is the grid and the random
stream, or `none` once a `do … while` loop has run out of fuel. -/
def initCell (fuel r : Nat) (st : Option (Grid × Rand)) (c : Nat) : Option (Grid × Rand) :=
  st.bind fun s =>
    (pickKind s.1 r c fuel s.2).map fun p =>
      (s.1.set r c (some (Tile.new r c p.1)), p.2)

/-- The method `Game.initBoard()`: every `do … while` loop may use up to `fuel` draws. -/
def initBoard (fuel : Nat) (rnd : Rand) (g : Grid) : Option (Grid × Rand) :=
  forUp 9 (fun st r => forUp 9 (initCell fuel r) st) (some (g, rnd))

/-! ## Swap, gravity, refill -/

/-- The six values taken by `this.state`. -/
inductive State where
  | IDLE | ROLLBACK | MATCHING | FADING | FALLING | REFILLING
deriving DecidableEq

/-- The fields of `class Game` that the resolution logic reads or writes.
The selection and the pending swap hold coordinates that were bounds-checked
by `handleClick` before being stored. -/
structure Game where
  grid : Grid
  selected : Option (Fin 9 × Fin 9)
  score : Nat
  state : State
  waitTimer : ℚ
  swapBackData : Option (Fin 9 × Fin 9 × Fin 9 × Fin 9)

/-- The assignments `t.row = r; t.col = c`. -/
def Tile.moveTo (r c : Nat) (t : Tile) : Tile := { t with row := r, col := c }

/-- The first half of `swapTiles`: exchange the two cells, then store in each
exchanged tile the coordinates of the cell it now sits in. -/
def swapCells (g : Grid) (r1 c1 r2 c2 : Fin 9) : Grid :=
  let t1 := g r1 c1
  let t2 := g r2 c2
  (g.set r1 c1 (t2.map (Tile.moveTo r1 c1))).set r2 c2 (t1.map (Tile.moveTo r2 c2))

/-- The method `Game.swapTiles(r1, c1, r2, c2, rollback)`. -/
def swapTiles (gm : Game) (r1 c1 r2 c2 : Fin 9) (rollback : Bool) : Game :=
  let grid := swapCells gm.grid r1 c1 r2 c2
  if rollback then
    if (getMatches grid).length = 0 then
      { gm with grid := grid, state := State.ROLLBACK, waitTimer := ANIMATION_TIME,
                swapBackData := some (r1, c1, r2, c2) }
    else
      { gm with grid := grid, state := State.MATCHING, waitTimer := ANIMATION_TIME }
  else
    { gm with grid := grid, state := State.MATCHING, waitTimer := ANIMATION_TIME }

/-- One iteration of the inner loop of `applyGravity` at row `r` of column `c`;
the state is the grid, `emptySpots` and `moved`. -/
def gravityStep (c : Nat) (st : Grid × List Nat × Bool) (r : Nat) : Grid × List Nat × Bool :=
  match st.1.at r c with
  | none => (st.1, st.2.1 ++ [r], st.2.2)
  | some t =>
      match st.2.1 with
      | [] => (st.1, [], st.2.2)
      | targetR :: rest =>
          ((st.1.set targetR c (some { t with row := targetR })).set r c none, rest ++ [r], true)

/-- The method `Game.applyGravity()`; returns the grid and `moved`. -/
def applyGravity (g : Grid) : Grid × Bool :=
  forUp 9 (fun st c =>
    let res := forDown (gravityStep c) 9 (st.1, [], st.2)
    (res.1, res.2.2)) (g, false)

/-- One iteration of the loop of `refillTop` at column `c`; the state is the
grid, the random stream and `refilled`. -/
def refillStep (st : Grid × Rand × Bool) (c : Nat) : Grid × Rand × Bool :=
  match st.1.at 0 c with
  | none => (st.1.set 0 c (some { Tile.new (-1) c (st.2.1 0) with row := 0 }), st.2.1.rest, true)
  | some _ => st

/-- The method `Game.refillTop()`; returns the grid and `refilled`. -/
def refillTop (rnd : Rand) (g : Grid) : Grid × Bool :=
  let res := forUp 9 refillStep (g, rnd, false)
  (res.1, res.2.2)

/-! ## The frame update -/

/-- The body of the first loop of `Game.update` at cell `(r, c)`:
`if (this.grid[r][c]) this.grid[r][c].update(dt)`. -/
def updateTileAt (dt : ℚ) (g : Grid) (r c : Nat) : Grid :=
  match g.at r c with
  | some t => g.set r c (some (t.update dt))
  | none => g

/-- The first loop of `Game.update`: call `update(dt)` on every tile. -/
def updateTiles (dt : ℚ) (g : Grid) : Grid :=
  forUp 9 (fun g r => forUp 9 (fun g c => updateTileAt dt g r c) g) g

/-- The `matches.forEach` of the MATCHING step: set `isFading` on every matched
tile. -/
def markFading (g : Grid) (ms : List (Nat × Nat)) : Grid :=
  ms.foldl (fun g p =>
    match g.at p.1 p.2 with
    | some t => g.set p.1 p.2 (some { t with isFading := true })
    | none => g) g

/-- The body of the loop of the FADING step at cell `(r, c)`:
`if (this.grid[r][c] && this.grid[r][c].alpha <= 0) this.grid[r][c] = null`. -/
def clearFadedAt (g : Grid) (r c : Nat) : Grid :=
  match g.at r c with
  | some t => if t.alpha ≤ 0 then g.set r c none else g
  | none => g

/-- The loop of the FADING step: clear every cell whose tile has `alpha <= 0`. -/
def clearFaded (g : Grid) : Grid :=
  forUp 9 (fun g r => forUp 9 (fun g c => clearFadedAt g r c) g) g

/-- The method `Game.update(dt)`. `rnd` is the stream of draws available to this
frame. The result is `none` when the source throws, which happens only when the
ROLLBACK step finds `swapBackData` to be `null`. -/
def update (dt : ℚ) (rnd : Rand) (gm0 : Game) : Option Game :=
  let gm := { gm0 with grid := updateTiles dt gm0.grid }
  if gm.waitTimer > 0 then
    some { gm with waitTimer := gm.waitTimer - dt }
  else
    match gm.state with
    | State.ROLLBACK =>
        match gm.swapBackData with
        | none => none
        | some (r1, c1, r2, c2) =>
            some { swapTiles gm r1 c1 r2 c2 false with state := State.IDLE }
    | State.MATCHING =>
        let ms := getMatches gm.grid
        if ms.length > 0 then
          some { gm with score := gm.score + ms.length * 10,
                         grid := markFading gm.grid ms,
                         state := State.FADING, waitTimer := FADE_TIME }
        else
          some { gm with state := State.IDLE }
    | State.FADING =>
        some { gm with grid := clearFaded gm.grid, state := State.FALLING }
    | State.FALLING =>
        let res := applyGravity gm.grid
        if res.2 then
          some { gm with grid := res.1, waitTimer := 1 / 5 }
        else
          some { gm with grid := res.1, state := State.REFILLING }
    | State.REFILLING =>
        let res := refillTop rnd gm.grid
        if res.2 then
          some { gm with grid := res.1, state := State.FALLING, waitTimer := 1 / 10 }
        else if (getMatches res.1).length > 0 then
          some { gm with grid := res.1, state := State.MATCHING }
        else
          some { gm with grid := res.1, state := State.IDLE }
    | State.IDLE => some gm

/-! ## Input -/

/-- The method `Game.handleClick(e)`. `mx`, `my` are the click position in
canvas coordinates (the values computed from the event and the bounding
rectangle). -/
def handleClick (mx my : ℚ) (gm : Game) : Game :=
  if gm.state ≠ State.IDLE then gm
  else
    let col : Int := ⌊(mx - OFFSET_X) / TILE_SIZE⌋
    let row : Int := ⌊(my - OFFSET_Y) / TILE_SIZE⌋
    if h : row ≥ 0 ∧ row < 9 ∧ col ≥ 0 ∧ col < 9 then
      let r : Fin 9 := ⟨row.toNat, by omega⟩
      let c : Fin 9 := ⟨col.toNat, by omega⟩
      match gm.selected with
      | some (r1, c1) =>
          if (|(r1.val : Int) - row| = 1 ∧ (c1.val : Int) = col) ∨
             (|(c1.val : Int) - col| = 1 ∧ (r1.val : Int) = row) then
            { swapTiles gm r1 c1 r c true with selected := none }
          else
            { gm with selected := some (r, c) }
      | none => { gm with selected := some (r, c) }
    else gm

/-- The part of `new Game()` that builds the state: an all-empty grid handed to
`initBoard`, no selection, score 0, state IDLE, timer 0, no pending swap. -/
def Game.new (fuel : Nat) (rnd : Rand) : Option Game :=
  (initBoard fuel rnd Grid.empty).map fun res =>
    { grid := res.1, selected := none, score := 0, state := State.IDLE,
      waitTimer := 0, swapBackData := none }

/-! ## Specification-side notions -/

/-- The kind stored at a cell, if the cell is inside the grid and not empty. -/
def kindAt (g : Grid) (r c : Nat) : Option Nat := (g.at r c).map Tile.charIndex

/-- Three cells that are all non-empty and all of the same kind. -/
def Window3 (g : Grid) (p q s : Nat × Nat) : Prop :=
  kindAt g p.1 p.2 ≠ none ∧ kindAt g p.1 p.2 = kindAt g q.1 q.2 ∧
    kindAt g q.1 q.2 = kindAt g s.1 s.2

instance (g : Grid) (p q s : Nat × Nat) : Decidable (Window3 g p q s) := by
  unfold Window3; infer_instance

/-- The cell `(r, c)` is inside the grid and lies in a horizontal or vertical
window of three consecutive cells, all non-empty and all of the same kind. -/
def InRun (g : Grid) (r c : Nat) : Prop :=
  r < 9 ∧ c < 9 ∧
    ((∃ c0, c0 ≤ c ∧ (c ≤ c0 + 2 ∧ c0 + 2 < 9 ∧ Window3 g (r, c0) (r, c0 + 1) (r, c0 + 2))) ∨
     (∃ r0, r0 ≤ r ∧ (r ≤ r0 + 2 ∧ r0 + 2 < 9 ∧ Window3 g (r0, c) (r0 + 1, c) (r0 + 2, c))))

instance (g : Grid) (r c : Nat) : Decidable (InRun g r c) := by
  unfold InRun; infer_instance

/-- No cell of the grid is empty. -/
def Grid.Full (g : Grid) : Prop := ∀ r c : Fin 9, g r c ≠ none

/-- No horizontal and no vertical window of three cells is a run. -/
def NoWin (g : Grid) : Prop :=
  (∀ r c, ¬ Window3 g (r, c) (r, c + 1) (r, c + 2)) ∧
    (∀ r c, ¬ Window3 g (r, c) (r + 1, c) (r + 2, c))

/-- A stream of draws for which `initBoard` accepts every first draw. -/
def demoRand : Rand := fun i => (i % 9 + 2 * (i / 9)) % 5

/-- The state of `initBoard` when it is about to fill cell `(r, c)`: the cells
before it in row-major order are filled, the others are empty, and no window is
a run. -/
def InitInv (r c : Nat) (st : Option (Grid × Rand)) : Prop :=
  ∀ s, st = some s →
    (∀ r' c', r' < 9 → c' < 9 → (r' < r ∨ (r' = r ∧ c' < c)) → s.1.at r' c' ≠ none) ∧
    (∀ r' c', (r < r' ∨ (r' = r ∧ c ≤ c')) → s.1.at r' c' = none) ∧
    NoWin s.1

/-- The tiles of column `c`, read from the top row to the bottom row. -/
def colTiles (g : Grid) (c : Nat) : List Tile :=
  (List.range 9).filterMap fun r => g.at r c

/-- A tile without its stored row: what identifies a tile object while gravity
rewrites the `row` field of the tiles it moves. -/
def Tile.forgetRow (t : Tile) : Tile := { t with row := 0 }

/-- Column `c` has no empty cell below a non-empty cell. -/
def ColCompact (g : Grid) (c : Nat) : Prop :=
  ∀ r, r < 9 → g.at r c = none → ∀ r', r' < r → g.at r' c = none

/-- Every column is compact. -/
def Compact (g : Grid) : Prop := ∀ c, ColCompact g c

/-- The tiles of column `c` in rows `lo..8`, without their stored rows. -/
def colSeg (g : Grid) (c lo : Nat) : List Tile :=
  (List.range' lo (9 - lo)).filterMap fun r => (g.at r c).map Tile.forgetRow

/-- The state of the inner loop of `applyGravity` on column `c` when rows `n..8`
have been visited; `g0`, `m0` are the grid and `moved` at the start of the
column. The `j` rows from `n` on are the empty spots, in queue order from the
lowest up; the rows below them hold the tiles met so far, in their order. -/
def GravInv (g0 : Grid) (m0 : Bool) (c n : Nat) (st : Grid × List Nat × Bool) : Prop :=
  ∃ j, n + j ≤ 9 ∧ st.2.1 = (List.range' n j).reverse ∧
    (∀ r, n ≤ r → r < n + j → st.1.at r c = none) ∧
    (∀ r, n + j ≤ r → r < 9 → st.1.at r c ≠ none) ∧
    (∀ r, r < n → st.1.at r c = g0.at r c) ∧
    (∀ r c', c' ≠ c → st.1.at r c' = g0.at r c') ∧
    colSeg st.1 c (n + j) = colSeg g0 c n ∧
    (st.2.2 = false → st.1 = g0 ∧ m0 = false) ∧
    (m0 = true → st.2.2 = true)

/-- The state of the outer loop of `applyGravity` when columns `0..m-1` have been
visited, `g0` being the grid at the call. -/
def GravOuter (g0 : Grid) (m : Nat) (st : Grid × Bool) : Prop :=
  (∀ c, c < m → ColCompact st.1 c ∧ colSeg st.1 c 0 = colSeg g0 c 0) ∧
    (∀ r c, m ≤ c → st.1.at r c = g0.at r c) ∧
    (st.2 = false → st.1 = g0)

/-- The tile that `refillTop` puts into column `c` for the draw `k`:
`new Tile(-1, c, k)` with `row` then set to 0. -/
def refillTile (c k : Nat) : Tile := { Tile.new (-1) c k with row := 0 }

/-- The state of the loop of `refillTop` when columns `0..m-1` have been visited,
`g0` being the grid at the call. -/
def RefillInv (g0 : Grid) (m : Nat) (st : Grid × Rand × Bool) : Prop :=
  (∀ r c, r < 9 → c < 9 → (r ≠ 0 ∨ g0.at r c ≠ none ∨ m ≤ c) → st.1.at r c = g0.at r c) ∧
    (∀ c, c < m → g0.at 0 c = none → ∃ k, st.1.at 0 c = some (refillTile c k)) ∧
    (st.2.2 = true ↔ ∃ c, c < m ∧ g0.at 0 c = none)

/-- Every tile stores the coordinates of the cell that holds it. -/
def Synced (g : Grid) : Prop :=
  ∀ (r c : Fin 9) (t : Tile), g r c = some t → t.row = r.val ∧ t.col = c.val

/-- The states reachable from a freshly constructed game by clicks and by frames
with a non-negative time step. -/
inductive Reachable : Game → Prop
  | init (fuel : Nat) (rnd : Rand) (gm : Game) :
      Game.new fuel rnd = some gm → Reachable gm
  | click (mx my : ℚ) (gm : Game) : Reachable gm → Reachable (handleClick mx my gm)
  | frame (dt : ℚ) (rnd : Rand) (gm gm' : Game) :
      Reachable gm → 0 ≤ dt → update dt rnd gm = some gm' → Reachable gm'

/-- A full board without a run: kind `(c + 2 r) mod 5` at cell `(r, c)`. -/
def demoGrid : Grid :=
  ⟨fun r c => some (Tile.new r.val c.val ((c.val + 2 * r.val) % 5))⟩

/-- A game in the MATCHING state, on `demoGrid`. -/
def demoBusy : Game :=
  { grid := demoGrid, selected := none, score := 0, state := State.MATCHING,
    waitTimer := 0, swapBackData := none }

/-- The number of distinct cells of the grid that lie in a run of three or more
tiles of one kind. -/
def runCount (g : Grid) : Nat :=
  ((Finset.range 9 ×ˢ Finset.range 9).filter fun p => InRun g p.1 p.2).card

/-- A full board whose only run is the horizontal run of kind 1 at row 4,
columns 3 to 5. -/
def demoRunGrid : Grid :=
  ⟨fun r c =>
    some (Tile.new r.val c.val
      (if r.val = 4 ∧ (c.val = 4 ∨ c.val = 5) then 1 else (c.val + 2 * r.val) % 5))⟩

/-- A game about to execute the MATCHING step on `demoRunGrid`. -/
def demoRunGame : Game :=
  { grid := demoRunGrid, selected := none, score := 0, state := State.MATCHING,
    waitTimer := 0, swapBackData := none }

/-- The kind and the stored coordinates of a tile. -/
def Tile.core (t : Tile) : Nat × Int × Int := (t.charIndex, t.row, t.col)

/-- Two grids have the same empty cells and, in every other cell, tiles of the
same kind with the same stored `(row, col)`. -/
def SameCore (g g' : Grid) : Prop :=
  ∀ r c : Fin 9, (g r c).map Tile.core = (g' r c).map Tile.core

/-- Two grids have the same empty cells and, in every other cell, tiles of the
same kind. -/
def SameKinds (g g' : Grid) : Prop :=
  ∀ r c : Fin 9, (g r c).map Tile.charIndex = (g' r c).map Tile.charIndex

/-- The grids have the same kinds and, when `P` holds, also the same stored
coordinates. -/
def Alike (P : Prop) (g g' : Grid) : Prop := SameKinds g g' ∧ (P → SameCore g g')

/-- A run of successive frames, each an `update(dt)` with its own time step and
random draws. -/
def runFrames : List (ℚ × Rand) → Game → Option Game
  | [], gm => some gm
  | f :: fs, gm => (update f.1 f.2 gm).bind (runFrames fs)

/-- A game in IDLE on `demoGrid`. -/
def demoIdle : Game :=
  { grid := demoGrid, selected := none, score := 0, state := State.IDLE,
    waitTimer := 0, swapBackData := none }

/-- The invariant of the resolution machine, by state: a full board without a
run in IDLE; in ROLLBACK a full board and a pending swap whose reversal leaves
no run; a full board in MATCHING; compact columns in REFILLING. -/
def MachineInv (gm : Game) : Prop :=
  match gm.state with
  | State.IDLE => gm.grid.Full ∧ NoWin gm.grid
  | State.ROLLBACK =>
      gm.grid.Full ∧ ∃ d : Fin 9 × Fin 9 × Fin 9 × Fin 9,
        gm.swapBackData = some d ∧ NoWin (swapCells gm.grid d.1 d.2.1 d.2.2.1 d.2.2.2)
  | State.MATCHING => gm.grid.Full
  | State.FADING => True
  | State.FALLING => True
  | State.REFILLING => Compact gm.grid

/-- The adjacency test of `handleClick`: the cells differ by one row in the same
column, or by one column in the same row. -/
def Adjacent (r1 c1 r c : Fin 9) : Prop :=
  (|(r1.val : Int) - (r.val : Int)| = 1 ∧ (c1.val : Int) = (c.val : Int)) ∨
    (|(c1.val : Int) - (c.val : Int)| = 1 ∧ (r1.val : Int) = (r.val : Int))

instance (r1 c1 r c : Fin 9) : Decidable (Adjacent r1 c1 r c) := by
  unfold Adjacent; infer_instance

/-- A game in IDLE on `demoGrid` with cell `(0, 0)` selected. -/
def demoSelected : Game :=
  { grid := demoGrid, selected := some (0, 0), score := 0, state := State.IDLE,
    waitTimer := 0, swapBackData := none }

/-- A game about to execute the REFILLING step on `demoGrid` with the top cell of
column 2 empty. -/
def demoRefill : Game :=
  { grid := demoGrid.set 0 2 none, selected := none, score := 0, state := State.REFILLING,
    waitTimer := 0, swapBackData := none }

/-- The state of the inner loop of `applyGravity` on a compact column `c` of `g0`
when rows `n..8` have been visited: nothing has moved, and once an empty spot
is queued there is an empty cell at or below row `n`. -/
def StillInv (g0 : Grid) (m0 : Bool) (c n : Nat) (st : Grid × List Nat × Bool) : Prop :=
  st.1 = g0 ∧ st.2.2 = m0 ∧ (st.2.1 ≠ [] → ∃ r, n ≤ r ∧ r < 9 ∧ g0.at r c = none)

/-- A tile that is not fading: `isFading` is false and `alpha` still has its
initial value 1. -/
def Tile.Clean (t : Tile) : Prop := t.isFading = false ∧ t.alpha = 1

/-- A tile marked by the MATCHING step, `FADE_TIME - w` after the marking: it is
fading and its opacity has dropped to 0 or to at most `w / FADE_TIME`. -/
def Tile.Fades (w : ℚ) (t : Tile) : Prop :=
  t.isFading = true ∧ (t.alpha ≤ 0 ∨ t.alpha ≤ (1 / FADE_TIME) * w)

/-- Every tile of the grid satisfies `Q`. -/
def AllTiles (Q : Tile → Prop) (g : Grid) : Prop :=
  ∀ (r c : Fin 9) (t : Tile), g r c = some t → Q t

/-- The fading invariant: every tile is clean, except that in the FADING state a
tile may be one of the marked, fading tiles. -/
def FadeInv (gm : Game) : Prop :=
  AllTiles (fun t => t.Clean ∨ (gm.state = State.FADING ∧ t.Fades gm.waitTimer)) gm.grid

/-- The assignment `tile.isFading = true`. -/
def Tile.mark (t : Tile) : Tile := { t with isFading := true }

/-- The draws that make `initBoard` build the board with kind `(c + 2 r) mod 5`
at cell `(r, c)`, except kind 1 at `(4, 4)`: moving the tile of `(3, 5)` down
to `(4, 5)` completes the run of kind 1 at row 4, columns 3 to 5. -/
def matchRand : Rand := fun i =>
  if i / 9 = 4 ∧ i % 9 = 4 then 1 else (i % 9 + 2 * (i / 9)) % 5

/-- The freshly constructed game for the draws `matchRand`. -/
def matchStart : Game := (Game.new 1 matchRand).getD demoIdle

/-- The game `matchStart` after a click on cell `(3, 5)` and a click on cell
`(4, 5)`. -/
def matchClicked : Game := handleClick 331 391 (handleClick 331 331 matchStart)

/-- The game `matchClicked` after one frame of half a second. -/
def matchDue : Game := (update (1 / 2) demoRand matchClicked).getD demoIdle

/-- A run of frames each of which finds `waitTimer > 0`, so that it only updates
the tiles and takes its `dt` off the timer; `none` as soon as a frame finds the
timer elapsed. -/
def runWaiting : List (ℚ × Rand) → Game → Option Game
  | [], gm => some gm
  | f :: fs, gm =>
      if gm.waitTimer > 0 then (update f.1 f.2 gm).bind (runWaiting fs) else none

/-- The game is in FADING, its grid is full, the tiles at the cells of `M` are
the marked, fading ones and all other tiles are clean. -/
def Marked (M : List (Nat × Nat)) (gm : Game) : Prop :=
  gm.state = State.FADING ∧
    ∀ r c : Fin 9, ∃ t, gm.grid r c = some t ∧
      (((r.val, c.val) ∈ M ∧ t.Fades gm.waitTimer) ∨ ((r.val, c.val) ∉ M ∧ t.Clean))

end Match3

namespace Glide

/-! ## Endless Glide: the terrain layer

A shallow embedding of `class TerrainLayer` of `src/games/endless_glide/game.js`.
Coordinates are exact rationals. `Utils.noise` is built on `Math.sin`; the
layer only stores its values, so the model takes the noise function as a
parameter. `Math.random()` is an explicit stream of draws. The `color` of a
layer and `draw` are rendering and are left out. -/

/-- The constant `CONFIG.LOGICAL_HEIGHT`. -/
def LOGICAL_HEIGHT : ℚ := 800
/-- The constant `CONFIG.TERRAIN_SAMPLE_STEP`. -/
def TERRAIN_SAMPLE_STEP : ℚ := 15
/-- The constant `CONFIG.TREE_CHANCE` (0.05). -/
def TREE_CHANCE : ℚ := 1 / 20

/-- An entry of `CONFIG.PARALLAX_LAYERS`. -/
structure LayerConfig where
  speed : ℚ
  freq : ℚ
  amp : ℚ
  offset : ℚ

/-- A terrain node `{ x, y }`. -/
structure Node where
  x : ℚ
  y : ℚ
deriving DecidableEq

/-- A tree `{ x, y, size }`. -/
structure Tree where
  x : ℚ
  y : ℚ
  size : ℚ
deriving DecidableEq

/-- The fields of `class TerrainLayer`. -/
structure TerrainLayer where
  config : LayerConfig
  nodes : List Node
  trees : List Tree
  startX : ℚ

/-- The stream of results of `Math.random()`. -/
abbrev Draws := Nat → ℚ

/-- The stream after its first `k` draws have been consumed. -/
def Draws.skip (rnd : Draws) (k : Nat) : Draws := fun i => rnd (i + k)

/-- The method `TerrainLayer.addNode()`; `noise` is `Utils.noise`. Returns the
layer and the remaining draws. -/
def TerrainLayer.addNode (noise : ℚ → ℚ) (rnd : Draws) (l : TerrainLayer) :
    TerrainLayer × Draws :=
  let x : ℚ := l.nodes.length * TERRAIN_SAMPLE_STEP
  let totalX := l.startX + x
  let h := noise (totalX * l.config.freq) * l.config.amp
  let y := LOGICAL_HEIGHT - l.config.offset - h
  let l1 := { l with nodes := l.nodes ++ [{ x := x, y := y }] }
  if l.config.speed = 1 then
    if rnd 0 < TREE_CHANCE then
      ({ l1 with trees := l1.trees ++ [{ x := x, y := y, size := 20 + rnd 1 * 40 }] }, rnd.skip 2)
    else (l1, rnd.skip 1)
  else (l1, rnd)

/-- The `while` loop of `TerrainLayer.update`, run for at most `fuel` tests of its
condition; `none` when the loop has not left by then. -/
def scrollLoop (noise : ℚ → ℚ) : Nat → TerrainLayer × Draws → Option (TerrainLayer × Draws)
  | 0, _ => none
  | fuel + 1, st =>
      match st.1.nodes with
      | [] => some st
      | n :: rest =>
          if n.x < -TERRAIN_SAMPLE_STEP then
            scrollLoop noise fuel (TerrainLayer.addNode noise st.2 { st.1 with nodes := rest })
          else some st

/-- The nodes after `this.nodes.forEach(n => n.x -= move)`. -/
def scrolled (move : ℚ) (nodes : List Node) : List Node :=
  nodes.map fun n => { n with x := n.x - move }

/-- The method `TerrainLayer.update(vx)`. -/
def TerrainLayer.update (noise : ℚ → ℚ) (fuel : Nat) (vx : ℚ) (rnd : Draws) (l : TerrainLayer) :
    Option (TerrainLayer × Draws) :=
  let move := vx * l.config.speed
  let l1 := { l with startX := l.startX + move,
                     nodes := scrolled move l.nodes,
                     trees := l.trees.map fun t => { t with x := t.x - move } }
  (scrollLoop noise fuel (l1, rnd)).map fun st =>
    ({ st.1 with trees := st.1.trees.filter fun t => decide (t.x > -100) }, st.2)

/-- A layer of three nodes, the first of which leaves the screen when the
layer scrolls by 20. -/
def demoLayer : TerrainLayer :=
  { config := { speed := 1, freq := 1 / 200, amp := 200, offset := 250 },
    nodes := [{ x := 0, y := 500 }, { x := 15, y := 510 }, { x := 30, y := 505 }],
    trees := [], startX := 0 }

end Glide

namespace Match3

/-! # Theorems -/

/-! ## Loops -/

theorem forUp_zero {σ : Type} (f : σ → Nat → σ) (s : σ) : forUp 0 f s = s := rfl

theorem forUp_succ {σ : Type} (n : Nat) (f : σ → Nat → σ) (s : σ) :
    forUp (n + 1) f s = f (forUp n f s) n := by
  simp [forUp, List.range_succ]

/-- Invariant rule for an upward counting loop. -/
theorem forUp_inv {σ : Type} (P : Nat → σ → Prop) (n : Nat) (f : σ → Nat → σ) (s : σ)
    (h0 : P 0 s) (hstep : ∀ i t, i < n → P i t → P (i + 1) (f t i)) :
    P n (forUp n f s) := by
  induction n with
  | zero => simpa [forUp_zero] using h0
  | succ k ih =>
      rw [forUp_succ]
      exact hstep k _ (Nat.lt_succ_self k)
        (ih (fun i t hi hp => hstep i t (Nat.lt_succ_of_lt hi) hp))

/-- Invariant rule for a downward counting loop. -/
theorem forDown_inv {σ : Type} (P : Nat → σ → Prop) (f : σ → Nat → σ) :
    ∀ (n : Nat) (s : σ), P n s → (∀ i t, i < n → P (i + 1) t → P i (f t i)) →
      P 0 (forDown f n s) := by
  intro n
  induction n with
  | zero => intro s h _; simpa [forDown] using h
  | succ k ih =>
      intro s h hstep
      simp only [forDown]
      exact ih _ (hstep k s (Nat.lt_succ_self k) h)
        (fun i t hi hp => hstep i t (Nat.lt_succ_of_lt hi) hp)

/-! ## Grid access -/

theorem Grid.at_fin (g : Grid) (r c : Fin 9) : g.at r.val c.val = g r c := by
  simp [Grid.at, r.isLt, c.isLt]

theorem Grid.at_of_lt (g : Grid) {r c : Nat} (hr : r < 9) (hc : c < 9) :
    g.at r c = g ⟨r, hr⟩ ⟨c, hc⟩ := by
  simp [Grid.at, hr, hc]

theorem Grid.at_row_ge (g : Grid) {r : Nat} (c : Nat) (hr : 9 ≤ r) : g.at r c = none := by
  simp [Grid.at, Nat.not_lt.mpr hr]

theorem Grid.at_col_ge (g : Grid) (r : Nat) {c : Nat} (hc : 9 ≤ c) : g.at r c = none := by
  simp [Grid.at, Nat.not_lt.mpr hc]

theorem Grid.at_set (g : Grid) (r c : Nat) (v : Option Tile) (r' c' : Nat)
    (hr : r' < 9) (hc : c' < 9) :
    (g.set r c v).at r' c' = if r' = r ∧ c' = c then v else g.at r' c' := by
  simp [Grid.at, Grid.set, hr, hc]

theorem Grid.at_set_self (g : Grid) {r c : Nat} (v : Option Tile) (hr : r < 9) (hc : c < 9) :
    (g.set r c v).at r c = v := by
  simp [Grid.at_set g r c v r c hr hc]

theorem Grid.at_set_ne (g : Grid) (r c : Nat) (v : Option Tile) (r' c' : Nat)
    (h : ¬ (r' = r ∧ c' = c)) : (g.set r c v).at r' c' = g.at r' c' := by
  by_cases hr : r' < 9
  · by_cases hc : c' < 9
    · simp [Grid.at_set g r c v r' c' hr hc, h]
    · simp [Grid.at, hc]
  · simp [Grid.at, hr]

theorem Grid.ext_at {g g' : Grid} (h : ∀ r c, r < 9 → c < 9 → g.at r c = g'.at r c) :
    g = g' := by
  obtain ⟨f⟩ := g
  obtain ⟨f'⟩ := g'
  congr 1
  funext r c
  have := h r.val c.val r.isLt c.isLt
  simpa [Grid.at, r.isLt, c.isLt] using this

theorem Grid.set_at_self (g : Grid) (r c : Nat) : g.set r c (g.at r c) = g := by
  apply Grid.ext_at
  intro r' c' hr hc
  rw [Grid.at_set g r c _ r' c' hr hc]
  split
  · next h => rw [h.1, h.2]
  · rfl

/-! ## Match detection -/

theorem mem_setAdd (m : List (Nat × Nat)) (p x : Nat × Nat) :
    x ∈ setAdd m p ↔ x ∈ m ∨ x = p := by
  unfold setAdd
  split
  · next h =>
      constructor
      · exact Or.inl
      · rintro (h' | rfl)
        · exact h'
        · exact h
  · simp

theorem nodup_setAdd (m : List (Nat × Nat)) (p : Nat × Nat) (h : m.Nodup) :
    (setAdd m p).Nodup := by
  unfold setAdd
  split
  · exact h
  · next hp =>
      rw [List.nodup_append]
      refine ⟨h, List.nodup_singleton p, ?_⟩
      intro a ha hb
      simp only [List.mem_singleton] at hb
      subst hb
      exact hp ha

/-- Membership in the result of a loop each of whose iterations only adds
elements described by `Q`. -/
theorem forUp_mem {β : Type} (n : Nat) (f : List β → Nat → List β) (Q : Nat → β → Prop)
    (hf : ∀ m i x, i < n → (x ∈ f m i ↔ x ∈ m ∨ Q i x)) (m : List β) (x : β) :
    x ∈ forUp n f m ↔ x ∈ m ∨ ∃ i, i < n ∧ Q i x := by
  induction n with
  | zero => simp [forUp_zero]
  | succ k ih =>
      rw [forUp_succ, hf _ k x (Nat.lt_succ_self k),
        ih (fun m i x hi => hf m i x (Nat.lt_succ_of_lt hi))]
      constructor
      · rintro ((h | ⟨i, hi, hq⟩) | hq)
        · exact Or.inl h
        · exact Or.inr ⟨i, Nat.lt_succ_of_lt hi, hq⟩
        · exact Or.inr ⟨k, Nat.lt_succ_self k, hq⟩
      · rintro (h | ⟨i, hi, hq⟩)
        · exact Or.inl (Or.inl h)
        · rcases Nat.lt_succ_iff_lt_or_eq.mp hi with h' | rfl
          · exact Or.inl (Or.inr ⟨i, h', hq⟩)
          · exact Or.inr hq

theorem isRun_iff (a b d : Option Tile) :
    isRun a b d = true ↔
      a.map Tile.charIndex ≠ none ∧ a.map Tile.charIndex = b.map Tile.charIndex ∧
        b.map Tile.charIndex = d.map Tile.charIndex := by
  cases a <;> cases b <;> cases d <;> simp [isRun]
  intro h; constructor
  · intro h2; rw [← h, h2]
  · intro h2; rw [h, h2]

/-- The step of both scans of `getMatches`. -/
theorem mem_matchStep (b : Bool) (m : List (Nat × Nat)) (p q s x : Nat × Nat) :
    x ∈ (if b = true then setAdd (setAdd (setAdd m p) q) s else m) ↔
      x ∈ m ∨ (b = true ∧ (x = p ∨ x = q ∨ x = s)) := by
  cases b <;> simp [mem_setAdd, or_assoc]

theorem nodup_matchStep (b : Bool) (m : List (Nat × Nat)) (p q s : Nat × Nat) (h : m.Nodup) :
    (if b = true then setAdd (setAdd (setAdd m p) q) s else m).Nodup := by
  cases b
  · simpa using h
  · simpa using nodup_setAdd _ _ (nodup_setAdd _ _ (nodup_setAdd _ _ h))

/-- Raw description of the members of `getMatches`, straight from the two scans. -/
theorem mem_getMatches_raw (g : Grid) (x : Nat × Nat) :
    x ∈ getMatches g ↔
      (∃ r, r < 9 ∧ ∃ c, c < 7 ∧
        (isRun (g.at r c) (g.at r (c + 1)) (g.at r (c + 2)) = true ∧
          (x = (r, c) ∨ x = (r, c + 1) ∨ x = (r, c + 2)))) ∨
      (∃ c, c < 9 ∧ ∃ r, r < 7 ∧
        (isRun (g.at r c) (g.at (r + 1) c) (g.at (r + 2) c) = true ∧
          (x = (r, c) ∨ x = (r + 1, c) ∨ x = (r + 2, c)))) := by
  unfold getMatches
  simp only []
  rw [forUp_mem 9 _ (fun c x => ∃ r, r < 7 ∧
        (isRun (g.at r c) (g.at (r + 1) c) (g.at (r + 2) c) = true ∧
          (x = (r, c) ∨ x = (r + 1, c) ∨ x = (r + 2, c))))]
  · rw [forUp_mem 9 _ (fun r x => ∃ c, c < 7 ∧
        (isRun (g.at r c) (g.at r (c + 1)) (g.at r (c + 2)) = true ∧
          (x = (r, c) ∨ x = (r, c + 1) ∨ x = (r, c + 2))))]
    · simp
    · intro m r x _
      exact forUp_mem 7 _ (fun c x => isRun (g.at r c) (g.at r (c + 1)) (g.at r (c + 2)) = true ∧
          (x = (r, c) ∨ x = (r, c + 1) ∨ x = (r, c + 2)))
        (fun m c x _ => mem_matchStep _ m (r, c) (r, c + 1) (r, c + 2) x) m x
  · intro m c x _
    exact forUp_mem 7 _ (fun r x => isRun (g.at r c) (g.at (r + 1) c) (g.at (r + 2) c) = true ∧
          (x = (r, c) ∨ x = (r + 1, c) ∨ x = (r + 2, c)))
      (fun m r x _ => mem_matchStep _ m (r, c) (r + 1, c) (r + 2, c) x) m x

theorem nodup_getMatches (g : Grid) : (getMatches g).Nodup := by
  unfold getMatches
  simp only []
  refine forUp_inv (fun _ m => List.Nodup m) 9 _ _ ?_ ?_
  · refine forUp_inv (fun _ m => List.Nodup m) 9 _ _ List.nodup_nil ?_
    intro r m _ hm
    refine forUp_inv (fun _ m => List.Nodup m) 7 _ _ hm ?_
    intro c m _ hm
    exact nodup_matchStep _ m _ _ _ hm
  · intro c m _ hm
    refine forUp_inv (fun _ m => List.Nodup m) 7 _ _ hm ?_
    intro r m _ hm
    exact nodup_matchStep _ m _ _ _ hm

theorem isRun_iff_window (g : Grid) (p q s : Nat × Nat) :
    isRun (g.at p.1 p.2) (g.at q.1 q.2) (g.at s.1 s.2) = true ↔ Window3 g p q s := by
  rw [isRun_iff]; rfl

theorem mem_getMatches_iff (g : Grid) (r c : Nat) :
    (r, c) ∈ getMatches g ↔ InRun g r c := by
  rw [mem_getMatches_raw]
  unfold InRun
  constructor
  · rintro (⟨r0, hr0, c0, hc0, hrun, hx⟩ | ⟨c0, hc0, r0, hr0, hrun, hx⟩)
    · have hw := (isRun_iff_window g (r0, c0) (r0, c0 + 1) (r0, c0 + 2)).mp hrun
      have hrc : r = r0 ∧ c0 ≤ c ∧ c ≤ c0 + 2 := by
        rcases hx with h | h | h <;> (simp only [Prod.mk.injEq] at h; omega)
      obtain ⟨rfl, h1, h2⟩ := hrc
      exact ⟨hr0, by omega, Or.inl ⟨c0, h1, h2, by omega, hw⟩⟩
    · have hw := (isRun_iff_window g (r0, c0) (r0 + 1, c0) (r0 + 2, c0)).mp hrun
      have hrc : c = c0 ∧ r0 ≤ r ∧ r ≤ r0 + 2 := by
        rcases hx with h | h | h <;> (simp only [Prod.mk.injEq] at h; omega)
      obtain ⟨rfl, h1, h2⟩ := hrc
      exact ⟨by omega, hc0, Or.inr ⟨r0, h1, h2, by omega, hw⟩⟩
  · rintro ⟨hr, hc, ⟨c0, h1, h2, h3, hw⟩ | ⟨r0, h1, h2, h3, hw⟩⟩
    · refine Or.inl ⟨r, hr, c0, by omega, (isRun_iff_window g _ _ _).mpr hw, ?_⟩
      have : c = c0 ∨ c = c0 + 1 ∨ c = c0 + 2 := by omega
      rcases this with h | h | h <;> simp [h]
    · refine Or.inr ⟨c, hc, r0, by omega, (isRun_iff_window g _ _ _).mpr hw, ?_⟩
      have : r = r0 ∨ r = r0 + 1 ∨ r = r0 + 2 := by omega
      rcases this with h | h | h <;> simp [h]

/-- C2. For every 9×9 grid (cells may be empty) the list returned by
`getMatches` has no repeated coordinate, and its members are exactly the
in-bounds cells lying in some horizontal or vertical window of three consecutive
cells that are all non-empty and of one kind. A window with an empty cell
contributes nothing, and a cell in two runs is listed once. -/
theorem getMatches_spec (g : Grid) :
    (getMatches g).Nodup ∧ ∀ r c, (r, c) ∈ getMatches g ↔ InRun g r c :=
  ⟨nodup_getMatches g, mem_getMatches_iff g⟩

/-! ## Board initialisation -/

theorem kindAt_set (g : Grid) (r c : Nat) (v : Option Tile) (r' c' : Nat)
    (hr : r < 9) (hc : c < 9) :
    kindAt (g.set r c v) r' c' =
      if r' = r ∧ c' = c then v.map Tile.charIndex else kindAt g r' c' := by
  unfold kindAt
  by_cases h : r' = r ∧ c' = c
  · obtain ⟨rfl, rfl⟩ := h
    simp [Grid.at_set_self g v hr hc]
  · simp [Grid.at_set_ne g r c v r' c' h, h]

theorem getMatches_eq_nil_iff (g : Grid) : getMatches g = [] ↔ NoWin g := by
  rw [List.eq_nil_iff_forall_not_mem]
  constructor
  · intro h
    constructor
    · intro r c hw
      have hk : kindAt g r (c + 2) ≠ none := by
        rw [← hw.2.2, ← hw.2.1]; exact hw.1
      have hr : r < 9 := by
        by_contra hr
        exact hk (by simp [kindAt, Grid.at_row_ge g _ (Nat.le_of_not_lt hr)])
      have hc : c + 2 < 9 := by
        by_contra hc
        exact hk (by simp [kindAt, Grid.at_col_ge g _ (Nat.le_of_not_lt hc)])
      exact h (r, c) ((mem_getMatches_iff g r c).mpr
        ⟨hr, by omega, Or.inl ⟨c, le_refl c, by omega, hc, hw⟩⟩)
    · intro r c hw
      have hk : kindAt g (r + 2) c ≠ none := by
        rw [← hw.2.2, ← hw.2.1]; exact hw.1
      have hr : r + 2 < 9 := by
        by_contra hr
        exact hk (by simp [kindAt, Grid.at_row_ge g _ (Nat.le_of_not_lt hr)])
      have hc : c < 9 := by
        by_contra hc
        exact hk (by simp [kindAt, Grid.at_col_ge g _ (Nat.le_of_not_lt hc)])
      exact h (r, c) ((mem_getMatches_iff g r c).mpr
        ⟨by omega, hc, Or.inr ⟨r, le_refl r, by omega, hr, hw⟩⟩)
  · rintro ⟨hh, hv⟩ ⟨r, c⟩ hm
    rcases (mem_getMatches_iff g r c).mp hm with ⟨_, _, ⟨c0, _, _, _, hw⟩ | ⟨r0, _, _, _, hw⟩⟩
    · exact hh r c0 hw
    · exact hv r0 c hw

theorem hasKind_iff (o : Option Tile) (k : Nat) :
    hasKind o k = true ↔ o.map Tile.charIndex = some k := by
  cases o <;> simp [hasKind]

theorem pickKind_spec (g : Grid) (r c : Nat) :
    ∀ (fuel : Nat) (rnd : Rand) (p : Nat × Rand),
      pickKind g r c fuel rnd = some p → wouldMatch g r c p.1 = false := by
  intro fuel
  induction fuel with
  | zero => intro rnd p h; simp [pickKind] at h
  | succ n ih =>
      intro rnd p h
      simp only [pickKind] at h
      split at h
      · exact ih _ _ h
      · next hw =>
          simp only [Option.some.injEq] at h
          subst h
          simpa using hw

theorem wouldMatch_eq_false_iff (g : Grid) (r c k : Nat) :
    wouldMatch g r c k = false ↔
      ¬ (2 ≤ c ∧ kindAt g r (c - 1) = some k ∧ kindAt g r (c - 2) = some k) ∧
      ¬ (2 ≤ r ∧ kindAt g (r - 1) c = some k ∧ kindAt g (r - 2) c = some k) := by
  unfold wouldMatch kindAt
  simp only [hasKind_iff, ge_iff_le]
  by_cases h1 : 2 ≤ c ∧ Option.map Tile.charIndex (g.at r (c - 1)) = some k ∧
      Option.map Tile.charIndex (g.at r (c - 2)) = some k
  · simp [h1]
  · by_cases h2 : 2 ≤ r ∧ Option.map Tile.charIndex (g.at (r - 1) c) = some k ∧
        Option.map Tile.charIndex (g.at (r - 2) c) = some k
    · simp [h1, h2]
    · simp [h1, h2]

/-- Placing, at the first cell in row-major order that is still empty, a kind
that `wouldMatch` accepts creates no run. -/
theorem noWin_place (g : Grid) (r c k : Nat) (t : Tile) (hr : r < 9) (hc : c < 9)
    (ht : t.charIndex = k) (hno : NoWin g)
    (hempty : ∀ r' c', (r < r' ∨ (r' = r ∧ c ≤ c')) → g.at r' c' = none)
    (hw : wouldMatch g r c k = false) :
    NoWin (g.set r c (some t)) := by
  have hk : ∀ r' c', kindAt (g.set r c (some t)) r' c' =
      if r' = r ∧ c' = c then some k else kindAt g r' c' := by
    intro r' c'; rw [kindAt_set g r c _ r' c' hr hc]; simp [ht]
  have hnone : ∀ r' c', (r < r' ∨ (r' = r ∧ c ≤ c')) → kindAt g r' c' = none := by
    intro r' c' h; simp [kindAt, hempty r' c' h]
  rw [wouldMatch_eq_false_iff] at hw
  obtain ⟨hwh, hwv⟩ := hw
  constructor
  · intro r1 c1 hwin
    unfold Window3 at hwin
    simp only [hk] at hwin
    by_cases hr1 : r1 = r
    · subst hr1
      by_cases h0 : c1 = c
      · subst h0
        have := hnone r1 (c1 + 1) (Or.inr ⟨rfl, by omega⟩)
        simp [this] at hwin
      · by_cases h1 : c1 + 1 = c
        · subst h1
          have := hnone r1 (c1 + 1 + 1) (Or.inr ⟨rfl, by omega⟩)
          simp [this] at hwin
        · by_cases h2 : c1 + 2 = c
          · subst h2
            simp at hwin
            apply hwh
            refine ⟨by omega, ?_, ?_⟩
            · simpa using hwin.2.2
            · simpa [hwin.2.1] using hwin.2.2
          · simp [h0, h1, h2] at hwin
            exact hno.1 r1 c1 hwin
    · simp [hr1] at hwin
      exact hno.1 r1 c1 hwin
  · intro r1 c1 hwin
    unfold Window3 at hwin
    simp only [hk] at hwin
    by_cases hc1 : c1 = c
    · subst hc1
      by_cases h0 : r1 = r
      · subst h0
        have := hnone (r1 + 1) c1 (Or.inl (by omega))
        simp [this] at hwin
      · by_cases h1 : r1 + 1 = r
        · subst h1
          have := hnone (r1 + 1 + 1) c1 (Or.inl (by omega))
          simp [this] at hwin
        · by_cases h2 : r1 + 2 = r
          · subst h2
            simp at hwin
            apply hwv
            refine ⟨by omega, ?_, ?_⟩
            · simpa using hwin.2.2
            · simpa [hwin.2.1] using hwin.2.2
          · simp [h0, h1, h2] at hwin
            exact hno.2 r1 c1 hwin
    · simp [hc1] at hwin
      exact hno.2 r1 c1 hwin

theorem initCell_inv (fuel r c : Nat) (hr : r < 9) (hc : c < 9) (st : Option (Grid × Rand))
    (h : InitInv r c st) : InitInv r (c + 1) (initCell fuel r st c) := by
  intro s' hs'
  unfold initCell at hs'
  rcases st with _ | s
  · simp at hs'
  · simp only [Option.some_bind, Option.map_eq_some'] at hs'
    obtain ⟨p, hp, rfl⟩ := hs'
    obtain ⟨hfill, hempty, hno⟩ := h s rfl
    refine ⟨?_, ?_, ?_⟩
    · intro r' c' hr' hc' hlt
      simp only []
      rw [Grid.at_set _ _ _ _ _ _ hr' hc']
      split
      · simp
      · next hne => exact hfill r' c' hr' hc' (by omega)
    · intro r' c' hge
      simp only []
      rw [Grid.at_set_ne _ _ _ _ _ _ (by omega)]
      exact hempty r' c' (by omega)
    · exact noWin_place s.1 r c p.1 _ hr hc rfl hno hempty (pickKind_spec _ _ _ _ _ _ hp)

theorem noWin_empty : NoWin Grid.empty := by
  constructor <;> intro r c h <;> exact h.1 (by
    unfold kindAt Grid.at Grid.empty; split <;> [split; skip] <;> rfl)

theorem initBoard_inv (fuel : Nat) (rnd : Rand) (g : Grid)
    (hg : ∀ r c, g.at r c = none) (hno : NoWin g) :
    InitInv 9 0 (initBoard fuel rnd g) := by
  unfold initBoard
  refine forUp_inv (fun r st => InitInv r 0 st) 9 _ _ ?_ ?_
  · intro s hs
    cases hs
    exact ⟨fun r' c' _ _ h => by omega, fun r' c' _ => hg r' c', hno⟩
  · intro r st hr hst
    have := forUp_inv (fun c st => InitInv r c st) 9 (initCell fuel r) st hst
      (fun c st hc h => initCell_inv fuel r c hr hc st h)
    intro s hs
    obtain ⟨h1, h2, h3⟩ := this s hs
    refine ⟨fun r' c' hr' hc' hlt => h1 r' c' hr' hc' (by omega),
      fun r' c' hge => h2 r' c' (by omega), h3⟩

/-- C1. Starting from the all-empty 9×9 grid, for every stream of random draws
and every bound on the draws per cell for which `initBoard` terminates, the
completed board has every cell filled and `getMatches` returns the empty list on
it. -/
theorem initBoard_full_no_matches (fuel : Nat) (rnd : Rand) (res : Grid × Rand)
    (h : initBoard fuel rnd Grid.empty = some res) :
    res.1.Full ∧ getMatches res.1 = [] := by
  obtain ⟨h1, _, h3⟩ := initBoard_inv fuel rnd Grid.empty
    (fun r c => by unfold Grid.at Grid.empty; split <;> [split; skip] <;> rfl)
    noWin_empty res h
  refine ⟨?_, (getMatches_eq_nil_iff _).mpr h3⟩
  intro r c
  rw [← Grid.at_fin res.1 r c]
  exact h1 r.val c.val r.isLt c.isLt (by omega)

theorem initBoard_full_no_matches_witness :
    ∃ res, initBoard 1 demoRand Grid.empty = some res ∧
      res.1.Full ∧ getMatches res.1 = [] := by
  have h : (initBoard 1 demoRand Grid.empty).isSome = true := by decide
  obtain ⟨res, hres⟩ := Option.isSome_iff_exists.mp h
  exact ⟨res, hres, initBoard_full_no_matches 1 demoRand res hres⟩

/-! ## Loops that visit every cell once -/

/-- A nested loop over all cells whose body rewrites only the visited cell, as a
function of that cell, is a pointwise map of the grid. -/
theorem cellLoop_at (b : Grid → Nat → Nat → Grid) (F : Nat → Nat → Option Tile → Option Tile)
    (hb : ∀ g r c, r < 9 → c < 9 → b g r c = g.set r c (F r c (g.at r c)))
    (g : Grid) (r c : Nat) (hr : r < 9) (hc : c < 9) :
    (forUp 9 (fun g r => forUp 9 (fun g c => b g r c) g) g).at r c = F r c (g.at r c) := by
  have outer := forUp_inv
    (fun n (g' : Grid) => ∀ r' c', r' < 9 → c' < 9 →
      g'.at r' c' = if r' < n then F r' c' (g.at r' c') else g.at r' c')
    9 (fun g r => forUp 9 (fun g c => b g r c) g) g
    (by intro r' c' _ _; simp)
    (by
      intro n g0 hn h0
      have inner := forUp_inv
        (fun m (g' : Grid) => ∀ r' c', r' < 9 → c' < 9 →
          g'.at r' c' = if r' = n ∧ c' < m then F r' c' (g0.at r' c') else g0.at r' c')
        9 (fun g c => b g n c) g0
        (by intro r' c' _ _; simp)
        (by
          intro m g1 hm h1 r' c' hr' hc'
          simp only []
          rw [hb g1 n m hn hm, Grid.at_set _ _ _ _ _ _ hr' hc']
          by_cases h : r' = n ∧ c' = m
          · obtain ⟨rfl, rfl⟩ := h
            rw [h1 r' c' hr' hc']
            simp
          · rw [if_neg h, h1 r' c' hr' hc']
            by_cases h2 : r' = n ∧ c' < m
            · rw [if_pos h2, if_pos ⟨h2.1, by omega⟩]
            · rw [if_neg h2, if_neg (by omega)])
      intro r' c' hr' hc'
      simp only []
      rw [inner r' c' hr' hc']
      by_cases h : r' = n
      · subst h
        rw [if_pos ⟨rfl, hc'⟩, if_pos (Nat.lt_succ_self _), h0 r' c' hr' hc', if_neg (by omega)]
      · rw [if_neg (by omega), h0 r' c' hr' hc']
        by_cases h2 : r' < n
        · rw [if_pos h2, if_pos (by omega)]
        · rw [if_neg h2, if_neg (by omega)])
  rw [outer r c hr hc, if_pos hr]

theorem updateTiles_apply (dt : ℚ) (g : Grid) (r c : Fin 9) :
    updateTiles dt g r c = (g r c).map (fun t => t.update dt) := by
  have := cellLoop_at (updateTileAt dt)
    (fun _ _ o => o.map (fun t => t.update dt))
    (by
      intro g r c _ _
      unfold updateTileAt
      cases h : g.at r c with
      | none => simpa [h] using (Grid.set_at_self g r c).symm
      | some t => simp)
    g r.val c.val r.isLt c.isLt
  rw [Grid.at_fin, Grid.at_fin] at this
  unfold updateTiles
  exact this

theorem clearFaded_apply (g : Grid) (r c : Fin 9) :
    clearFaded g r c = (g r c).bind (fun t => if t.alpha ≤ 0 then none else some t) := by
  have := cellLoop_at clearFadedAt
    (fun _ _ o => o.bind (fun t => if t.alpha ≤ 0 then none else some t))
    (by
      intro g r c _ _
      unfold clearFadedAt
      cases h : g.at r c with
      | none => simpa [h] using (Grid.set_at_self g r c).symm
      | some t =>
          by_cases ha : t.alpha ≤ 0
          · simp [ha]
          · simpa [ha, h] using (Grid.set_at_self g r c).symm)
    g r.val c.val r.isLt c.isLt
  rw [Grid.at_fin, Grid.at_fin] at this
  unfold clearFaded
  exact this

theorem Tile.update_charIndex (t : Tile) (dt : ℚ) : (t.update dt).charIndex = t.charIndex := by
  unfold Tile.update
  simp only []
  split <;> split <;> rfl

theorem Tile.update_row (t : Tile) (dt : ℚ) : (t.update dt).row = t.row := by
  unfold Tile.update
  simp only []
  split <;> split <;> rfl

theorem Tile.update_col (t : Tile) (dt : ℚ) : (t.update dt).col = t.col := by
  unfold Tile.update
  simp only []
  split <;> split <;> rfl

/-! ## Gravity -/

theorem colSeg_cons (g : Grid) (c lo : Nat) (h : lo < 9) :
    colSeg g c lo = ((g.at lo c).map Tile.forgetRow).toList ++ colSeg g c (lo + 1) := by
  unfold colSeg
  have : 9 - lo = (9 - (lo + 1)) + 1 := by omega
  rw [this, List.range'_succ, List.filterMap_cons]
  cases h1 : g.at lo c <;> simp

theorem colSeg_congr (g g' : Grid) (c lo : Nat)
    (h : ∀ r, lo ≤ r → r < 9 → g.at r c = g'.at r c) : colSeg g c lo = colSeg g' c lo := by
  unfold colSeg
  apply List.filterMap_congr
  intro r hr
  rw [List.mem_range'_1] at hr
  rw [h r hr.1 (by omega)]

theorem gravityStep_inv (g0 : Grid) (m0 : Bool) (c : Nat) (hc : c < 9) (n : Nat) (hn : n < 9)
    (st : Grid × List Nat × Bool) (h : GravInv g0 m0 c (n + 1) st) :
    GravInv g0 m0 c n (gravityStep c st n) := by
  obtain ⟨g, es, moved⟩ := st
  obtain ⟨j, hj, hes, hemp, hfull, hlow, hoth, hseg, hmv, hm0⟩ := h
  simp only [] at hes hemp hfull hlow hoth hseg hmv hm0
  unfold gravityStep
  simp only []
  cases hcell : g.at n c with
  | none =>
      refine ⟨j + 1, by omega, ?_, ?_, ?_, ?_, ?_, ?_, ?_, ?_⟩
      · simp only []
        rw [hes, List.range'_succ, List.reverse_cons]
      · intro r h1 h2
        simp only []
        by_cases hr : r = n
        · rw [hr]; exact hcell
        · exact hemp r (by omega) (by omega)
      · intro r h1 h2
        exact hfull r (by omega) h2
      · intro r h1
        exact hlow r (by omega)
      · exact hoth
      · simp only []
        rw [colSeg_cons g0 c n hn, ← hlow n (by omega), hcell]
        simpa [show n + (j + 1) = n + 1 + j by omega] using hseg
      · exact hmv
      · exact hm0
  | some t =>
      cases j with
      | zero =>
          simp only [List.range'_zero, List.reverse_nil] at hes
          subst hes
          refine ⟨0, by omega, by simp, ?_, ?_, ?_, ?_, ?_, ?_, ?_⟩
          · intro r h1 h2; omega
          · intro r h1 h2
            simp only []
            by_cases hr : r = n
            · rw [hr, hcell]; simp
            · exact hfull r (by omega) h2
          · intro r h1
            exact hlow r (by omega)
          · exact hoth
          · simp only []
            rw [colSeg_cons g0 c n hn, ← hlow n (by omega), Nat.add_zero,
              colSeg_cons g c n hn]
            simpa using hseg
          · exact hmv
          · exact hm0
      | succ j' =>
          rw [List.range'_concat, List.reverse_append] at hes
          simp only [List.reverse_cons, List.reverse_nil, List.nil_append, List.singleton_append,
            Nat.one_mul] at hes
          subst hes
          simp only []
          have hne : n + 1 + j' ≠ n := by omega
          have htl : n + 1 + j' < 9 := by omega
          refine ⟨j' + 1, by omega, ?_, ?_, ?_, ?_, ?_, ?_, ?_, ?_⟩
          · simp only []
            rw [List.range'_succ n j', List.reverse_cons]
          · intro r h1 h2
            simp only []
            by_cases hr : r = n
            · subst hr
              rw [Grid.at_set_self _ _ hn hc]
            · rw [Grid.at_set_ne _ _ _ _ _ _ (by omega), Grid.at_set_ne _ _ _ _ _ _ (by omega)]
              exact hemp r (by omega) (by omega)
          · intro r h1 h2
            simp only []
            rw [Grid.at_set_ne _ _ _ _ _ _ (by omega)]
            by_cases hr : r = n + 1 + j'
            · subst hr
              rw [Grid.at_set_self _ _ htl hc]; simp
            · rw [Grid.at_set_ne _ _ _ _ _ _ (by omega)]
              exact hfull r (by omega) h2
          · intro r h1
            simp only []
            rw [Grid.at_set_ne _ _ _ _ _ _ (by omega), Grid.at_set_ne _ _ _ _ _ _ (by omega)]
            exact hlow r (by omega)
          · intro r c' hc'
            simp only []
            rw [Grid.at_set_ne _ _ _ _ _ _ (by omega), Grid.at_set_ne _ _ _ _ _ _ (by omega)]
            exact hoth r c' hc'
          · simp only []
            rw [colSeg_cons g0 c n hn, ← hlow n (by omega), hcell,
              colSeg_cons _ c (n + (j' + 1)) (by omega),
              Grid.at_set_ne _ _ _ _ _ _ (by omega),
              show n + (j' + 1) = n + 1 + j' by omega, Grid.at_set_self _ _ htl hc,
              ← hseg]
            congr 1
            apply colSeg_congr
            intro r h1 h2
            rw [Grid.at_set_ne _ _ _ _ _ _ (by omega), Grid.at_set_ne _ _ _ _ _ _ (by omega)]
          · intro h; simp at h
          · intro _; rfl


theorem colSeg_skip (g : Grid) (c lo : Nat) :
    ∀ j, lo + j ≤ 9 → (∀ r, lo ≤ r → r < lo + j → g.at r c = none) →
      colSeg g c lo = colSeg g c (lo + j) := by
  intro j
  induction j with
  | zero => intro _ _; rfl
  | succ k ih =>
      intro h1 h2
      rw [ih (by omega) (fun r hr1 hr2 => h2 r hr1 (by omega)),
        colSeg_cons g c (lo + k) (by omega), h2 (lo + k) (by omega) (by omega)]
      rfl

theorem gravityColumn_spec (g0 : Grid) (m0 : Bool) (c : Nat) (hc : c < 9) :
    ColCompact (forDown (gravityStep c) 9 (g0, [], m0)).1 c ∧
    (∀ r c', c' ≠ c → (forDown (gravityStep c) 9 (g0, [], m0)).1.at r c' = g0.at r c') ∧
    colSeg (forDown (gravityStep c) 9 (g0, [], m0)).1 c 0 = colSeg g0 c 0 ∧
    ((forDown (gravityStep c) 9 (g0, [], m0)).2.2 = false →
      (forDown (gravityStep c) 9 (g0, [], m0)).1 = g0 ∧ m0 = false) ∧
    (m0 = true → (forDown (gravityStep c) 9 (g0, [], m0)).2.2 = true) := by
  have h := forDown_inv (fun n st => GravInv g0 m0 c n st) (gravityStep c) 9 (g0, [], m0)
    ⟨0, by omega, by simp, fun r h1 h2 => by omega, fun r h1 h2 => by omega,
      fun r _ => rfl, fun r c' _ => rfl, rfl, fun _ => ⟨rfl, by assumption⟩, fun h => h⟩
    (fun n st hn hst => gravityStep_inv g0 m0 c hc n hn st hst)
  obtain ⟨j, hj, _, hemp, hfull, _, hoth, hseg, hmv, hm0⟩ := h
  refine ⟨?_, hoth, ?_, hmv, hm0⟩
  · intro r hr hnone r' hr'
    by_cases h : r < 0 + j
    · exact hemp r' (by omega) (by omega)
    · exact absurd hnone (hfull r (by omega) hr)
  · rw [colSeg_skip _ c 0 j hj (fun r h1 h2 => hemp r h1 h2)]
    exact hseg

theorem applyGravity_outer (g : Grid) : GravOuter g 9 (applyGravity g) := by
  unfold applyGravity
  refine forUp_inv (fun m st => GravOuter g m st) 9 _ _ ?_ ?_
  · exact ⟨fun c hc => by omega, fun r c _ => rfl, fun _ => rfl⟩
  · intro m st hm hst
    obtain ⟨g', moved⟩ := st
    obtain ⟨hcols, hrest, hmv⟩ := hst
    simp only [] at hcols hrest hmv
    obtain ⟨k1, k2, k3, k4, _⟩ := gravityColumn_spec g' moved m hm
    refine ⟨?_, ?_, ?_⟩
    · intro c hc
      simp only []
      by_cases hcm : c = m
      · subst hcm
        refine ⟨k1, ?_⟩
        rw [k3]
        exact colSeg_congr _ _ _ _ (fun r _ _ => hrest r c (le_refl c))
      · obtain ⟨h1, h2⟩ := hcols c (by omega)
        constructor
        · intro r hr hnone r' hr'
          rw [k2 r c hcm] at hnone
          rw [k2 r' c hcm]
          exact h1 r hr hnone r' hr'
        · rw [← h2]
          exact colSeg_congr _ _ _ _ (fun r _ _ => k2 r c hcm)
    · intro r c hc
      simp only []
      rw [k2 r c (by omega)]
      exact hrest r c (by omega)
    · intro h
      simp only [] at h ⊢
      obtain ⟨e1, e2⟩ := k4 h
      rw [e1]
      exact hmv e2

theorem colCompact_of_ge (g : Grid) (c : Nat) (hc : 9 ≤ c) : ColCompact g c :=
  fun _ _ _ r' _ => Grid.at_col_ge g r' hc

theorem applyGravity_compact (g : Grid) : Compact (applyGravity g).1 := by
  intro c
  by_cases hc : c < 9
  · exact ((applyGravity_outer g).1 c hc).1
  · exact colCompact_of_ge _ c (by omega)

theorem applyGravity_unmoved (g : Grid) (h : (applyGravity g).2 = false) :
    (applyGravity g).1 = g :=
  (applyGravity_outer g).2.2 h

theorem colSeg_zero (g : Grid) (c : Nat) :
    colSeg g c 0 = (colTiles g c).map Tile.forgetRow := by
  unfold colSeg colTiles
  rw [List.map_filterMap, List.range_eq_range']

/-- C6. For every grid, with any pattern of empty cells, and every column `c`,
`applyGravity` leaves in column `c` the same tiles in the same top-to-bottom
order: the sequence of the non-empty cells of the column, read top to bottom,
is unchanged up to the stored row that gravity rewrites, so each tile keeps its
column and the number of non-empty cells of the column is unchanged. -/
theorem applyGravity_column_order (g : Grid) (c : Nat) :
    (colTiles (applyGravity g).1 c).map Tile.forgetRow = (colTiles g c).map Tile.forgetRow ∧
      (colTiles (applyGravity g).1 c).length = (colTiles g c).length := by
  have h : (colTiles (applyGravity g).1 c).map Tile.forgetRow =
      (colTiles g c).map Tile.forgetRow := by
    by_cases hc : c < 9
    · rw [← colSeg_zero, ← colSeg_zero]
      exact ((applyGravity_outer g).1 c hc).2
    · have e : ∀ g' : Grid, colTiles g' c = [] := by
        intro g'
        unfold colTiles
        rw [List.filterMap_eq_nil_iff]
        intro r _
        exact Grid.at_col_ge g' r (by omega)
      rw [e, e]
  refine ⟨h, ?_⟩
  have := congrArg List.length h
  simpa using this

/-! ## Refill -/

theorem refillStep_inv (g0 : Grid) (m : Nat) (hm : m < 9) (st : Grid × Rand × Bool)
    (h : RefillInv g0 m st) : RefillInv g0 (m + 1) (refillStep st m) := by
  obtain ⟨g, rnd, refilled⟩ := st
  obtain ⟨hkeep, hnew, hret⟩ := h
  simp only [] at hkeep hnew hret
  have hcur : g.at 0 m = g0.at 0 m := hkeep 0 m (by omega) hm (Or.inr (Or.inr (le_refl m)))
  unfold refillStep
  simp only []
  cases hcell : g.at 0 m with
  | none =>
      rw [hcur] at hcell
      refine ⟨?_, ?_, ?_⟩
      · intro r c hr hc hcond
        simp only []
        rw [Grid.at_set_ne]
        · exact hkeep r c hr hc (by
            rcases hcond with h1 | h1 | h1
            · exact Or.inl h1
            · exact Or.inr (Or.inl h1)
            · exact Or.inr (Or.inr (by omega)))
        · rintro ⟨rfl, rfl⟩
          rcases hcond with h1 | h1 | h1
          · exact h1 rfl
          · exact h1 hcell
          · omega
      · intro c hc hnone
        simp only []
        by_cases hcm : c = m
        · subst hcm
          exact ⟨rnd 0, by rw [Grid.at_set_self _ _ (by omega) hm]; rfl⟩
        · rw [Grid.at_set_ne _ _ _ _ _ _ (by omega)]
          exact hnew c (by omega) hnone
      · simp only [true_iff]
        exact ⟨m, Nat.lt_succ_self m, hcell⟩
  | some t =>
      rw [hcur] at hcell
      refine ⟨?_, ?_, ?_⟩
      · intro r c hr hc hcond
        simp only []
        by_cases hrc : r = 0 ∧ c = m
        · obtain ⟨rfl, rfl⟩ := hrc
          exact hcur
        · have hcond : r ≠ 0 ∨ g0.at r c ≠ none ∨ m + 1 ≤ c := by
            rcases hcond with h1 | h1 | h1
            · exact Or.inl h1
            · exact Or.inr (Or.inl h1)
            · by_cases h0 : r = 0
              · exact Or.inr (Or.inr (by omega))
              · exact Or.inl h0
          exact hkeep r c hr hc (by
            rcases hcond with h1 | h1 | h1
            · exact Or.inl h1
            · exact Or.inr (Or.inl h1)
            · exact Or.inr (Or.inr (by omega)))
      · intro c hc hnone
        simp only []
        by_cases hcm : c = m
        · subst hcm
          rw [hcell] at hnone
          cases hnone
        · exact hnew c (by omega) hnone
      · simp only []
        rw [hret]
        constructor
        · rintro ⟨c, hc, hn⟩
          exact ⟨c, by omega, hn⟩
        · rintro ⟨c, hc, hn⟩
          have : c ≠ m := by
            rintro rfl
            rw [hcell] at hn
            cases hn
          exact ⟨c, by omega, hn⟩

theorem refillTop_inv (rnd : Rand) (g : Grid) :
    RefillInv g 9 (forUp 9 refillStep (g, rnd, false)) := by
  refine forUp_inv (fun m st => RefillInv g m st) 9 refillStep _ ?_ ?_
  · exact ⟨fun _ _ _ _ _ => rfl, fun c hc => by omega, by simp⟩
  · intro m st hm h
    exact refillStep_inv g m hm st h

/-- C7. For every grid and every stream of random kinds, `refillTop` changes a
cell only if it is in row 0 and was empty: every cell of rows 1..8 and every
non-empty cell of row 0 is left exactly as it was, every empty cell of row 0
becomes a tile, and `refillTop` returns true if and only if row 0 contained an
empty cell. -/
theorem refillTop_spec (rnd : Rand) (g : Grid) :
    (∀ r c : Fin 9, (r.val ≠ 0 ∨ g r c ≠ none) → (refillTop rnd g).1 r c = g r c) ∧
    (∀ c : Fin 9, g 0 c = none → (refillTop rnd g).1 0 c ≠ none) ∧
    ((refillTop rnd g).2 = true ↔ ∃ c : Fin 9, g 0 c = none) := by
  obtain ⟨hkeep, hnew, hret⟩ := refillTop_inv rnd g
  refine ⟨?_, ?_, ?_⟩
  · intro r c h
    have := hkeep r.val c.val r.isLt c.isLt (by
      rcases h with h | h
      · exact Or.inl h
      · exact Or.inr (Or.inl (by rw [Grid.at_fin]; exact h)))
    rw [Grid.at_fin, Grid.at_fin] at this
    exact this
  · intro c h
    obtain ⟨k, hk⟩ := hnew c.val c.isLt (by rw [← h]; exact Grid.at_fin g 0 c)
    have e : (forUp 9 refillStep (g, rnd, false)).1.at 0 c.val = (refillTop rnd g).1 0 c :=
      Grid.at_fin (refillTop rnd g).1 0 c
    rw [← e, hk]
    simp
  · show (forUp 9 refillStep (g, rnd, false)).2.2 = true ↔ _
    rw [hret]
    constructor
    · rintro ⟨c, hc, hn⟩
      exact ⟨⟨c, hc⟩, by rw [← hn]; exact (Grid.at_fin g 0 ⟨c, hc⟩).symm⟩
    · rintro ⟨c, hn⟩
      exact ⟨c.val, c.isLt, by rw [← hn]; exact Grid.at_fin g 0 c⟩

/-! ## Swap -/

theorem Grid.set_apply (g : Grid) (r c : Nat) (v : Option Tile) (r' c' : Fin 9) :
    g.set r c v r' c' = if r'.val = r ∧ c'.val = c then v else g r' c' := rfl

theorem swapCells_second (g : Grid) (r1 c1 r2 c2 : Fin 9) :
    swapCells g r1 c1 r2 c2 r2 c2 = (g r1 c1).map (Tile.moveTo r2 c2) := by
  simp [swapCells, Grid.set_apply]

theorem swapCells_first (g : Grid) (r1 c1 r2 c2 : Fin 9) :
    swapCells g r1 c1 r2 c2 r1 c1 = (g r2 c2).map (Tile.moveTo r1 c1) := by
  by_cases h : r1 = r2 ∧ c1 = c2
  · obtain ⟨rfl, rfl⟩ := h
    simp [swapCells, Grid.set_apply]
  · have h' : ¬ (r1.val = r2.val ∧ c1.val = c2.val) := by
      rintro ⟨e1, e2⟩
      exact h ⟨Fin.ext e1, Fin.ext e2⟩
    simp [swapCells, Grid.set_apply, h']

theorem swapCells_other (g : Grid) (r1 c1 r2 c2 r c : Fin 9)
    (h1 : ¬ (r = r1 ∧ c = c1)) (h2 : ¬ (r = r2 ∧ c = c2)) :
    swapCells g r1 c1 r2 c2 r c = g r c := by
  have h1' : ¬ (r.val = r1.val ∧ c.val = c1.val) := by
    rintro ⟨e1, e2⟩
    exact h1 ⟨Fin.ext e1, Fin.ext e2⟩
  have h2' : ¬ (r.val = r2.val ∧ c.val = c2.val) := by
    rintro ⟨e1, e2⟩
    exact h2 ⟨Fin.ext e1, Fin.ext e2⟩
  simp [swapCells, Grid.set_apply, h1', h2']

theorem swapTiles_grid (gm : Game) (r1 c1 r2 c2 : Fin 9) (rb : Bool) :
    (swapTiles gm r1 c1 r2 c2 rb).grid = swapCells gm.grid r1 c1 r2 c2 := by
  unfold swapTiles
  simp only []
  split <;> [split; skip] <;> rfl

/-- C8. For every game and every two cells of the grid (adjacent or not), the
player swap `swapTiles(r1, c1, r2, c2)` exchanges the contents of the two cells,
each exchanged tile storing its new coordinates, and changes no other cell;
then, if `getMatches` on the exchanged grid is non-empty, the state is MATCHING
with `waitTimer = ANIMATION_TIME`, and otherwise the state is ROLLBACK with the
same `waitTimer = ANIMATION_TIME` and the pending swap is `(r1, c1, r2, c2)`. -/
theorem swapTiles_spec (gm : Game) (r1 c1 r2 c2 : Fin 9) :
    (swapTiles gm r1 c1 r2 c2 true).grid r1 c1 = (gm.grid r2 c2).map (Tile.moveTo r1 c1) ∧
    (swapTiles gm r1 c1 r2 c2 true).grid r2 c2 = (gm.grid r1 c1).map (Tile.moveTo r2 c2) ∧
    (∀ r c : Fin 9, ¬ (r = r1 ∧ c = c1) → ¬ (r = r2 ∧ c = c2) →
      (swapTiles gm r1 c1 r2 c2 true).grid r c = gm.grid r c) ∧
    (getMatches (swapTiles gm r1 c1 r2 c2 true).grid ≠ [] →
      (swapTiles gm r1 c1 r2 c2 true).state = State.MATCHING ∧
      (swapTiles gm r1 c1 r2 c2 true).waitTimer = ANIMATION_TIME) ∧
    (getMatches (swapTiles gm r1 c1 r2 c2 true).grid = [] →
      (swapTiles gm r1 c1 r2 c2 true).state = State.ROLLBACK ∧
      (swapTiles gm r1 c1 r2 c2 true).waitTimer = ANIMATION_TIME ∧
      (swapTiles gm r1 c1 r2 c2 true).swapBackData = some (r1, c1, r2, c2)) := by
  refine ⟨?_, ?_, ?_, ?_, ?_⟩
  · rw [swapTiles_grid]; exact swapCells_first _ _ _ _ _
  · rw [swapTiles_grid]; exact swapCells_second _ _ _ _ _
  · intro r c h1 h2
    rw [swapTiles_grid]; exact swapCells_other _ _ _ _ _ _ _ h1 h2
  · rw [swapTiles_grid]
    intro h
    have h' : ¬ (getMatches (swapCells gm.grid r1 c1 r2 c2)).length = 0 := by
      rwa [List.length_eq_zero]
    simp [swapTiles, h']
  · rw [swapTiles_grid]
    intro h
    simp [swapTiles, h]

/-! ## Clicks outside IDLE -/

/-- C10. For every game whose machine state is not IDLE and every click position,
`handleClick` leaves the game as it is: the grid, the selection, the state, the
wait timer, the pending swap and the score are unchanged. -/
theorem handleClick_not_idle (mx my : ℚ) (gm : Game) (h : gm.state ≠ State.IDLE) :
    handleClick mx my gm = gm := by
  unfold handleClick
  rw [if_pos h]

theorem handleClick_not_idle_witness :
    demoBusy.state ≠ State.IDLE ∧ handleClick 100 200 demoBusy = demoBusy :=
  ⟨by decide, handleClick_not_idle 100 200 demoBusy (by decide)⟩

/-! ## The branches of the frame update -/

theorem update_wait (dt : ℚ) (rnd : Rand) (gm : Game) (h : gm.waitTimer > 0) :
    update dt rnd gm =
      some { gm with grid := updateTiles dt gm.grid, waitTimer := gm.waitTimer - dt } := by
  unfold update
  dsimp only
  rw [if_pos h]

theorem update_idle (dt : ℚ) (rnd : Rand) (gm : Game) (h : ¬ gm.waitTimer > 0)
    (hs : gm.state = State.IDLE) :
    update dt rnd gm = some { gm with grid := updateTiles dt gm.grid } := by
  unfold update
  dsimp only
  rw [if_neg h, hs]

theorem update_rollback (dt : ℚ) (rnd : Rand) (gm : Game) (h : ¬ gm.waitTimer > 0)
    (hs : gm.state = State.ROLLBACK) (d : Fin 9 × Fin 9 × Fin 9 × Fin 9)
    (hd : gm.swapBackData = some d) :
    update dt rnd gm =
      some { swapTiles { gm with grid := updateTiles dt gm.grid } d.1 d.2.1 d.2.2.1 d.2.2.2 false
             with state := State.IDLE } := by
  unfold update
  dsimp only
  rw [if_neg h, hs, hd]

theorem update_rollback_none (dt : ℚ) (rnd : Rand) (gm : Game) (h : ¬ gm.waitTimer > 0)
    (hs : gm.state = State.ROLLBACK) (hd : gm.swapBackData = none) :
    update dt rnd gm = none := by
  unfold update
  dsimp only
  rw [if_neg h, hs, hd]

theorem update_matching (dt : ℚ) (rnd : Rand) (gm : Game) (h : ¬ gm.waitTimer > 0)
    (hs : gm.state = State.MATCHING) :
    update dt rnd gm =
      if (getMatches (updateTiles dt gm.grid)).length > 0 then
        some { gm with
          score := gm.score + (getMatches (updateTiles dt gm.grid)).length * 10,
          grid := markFading (updateTiles dt gm.grid) (getMatches (updateTiles dt gm.grid)),
          state := State.FADING, waitTimer := FADE_TIME }
      else some { gm with grid := updateTiles dt gm.grid, state := State.IDLE } := by
  unfold update
  dsimp only
  rw [if_neg h, hs]

theorem update_fading (dt : ℚ) (rnd : Rand) (gm : Game) (h : ¬ gm.waitTimer > 0)
    (hs : gm.state = State.FADING) :
    update dt rnd gm =
      some { gm with grid := clearFaded (updateTiles dt gm.grid), state := State.FALLING } := by
  unfold update
  dsimp only
  rw [if_neg h, hs]

theorem update_falling (dt : ℚ) (rnd : Rand) (gm : Game) (h : ¬ gm.waitTimer > 0)
    (hs : gm.state = State.FALLING) :
    update dt rnd gm =
      if (applyGravity (updateTiles dt gm.grid)).2 = true then
        some { gm with grid := (applyGravity (updateTiles dt gm.grid)).1, waitTimer := 1 / 5 }
      else
        some { gm with grid := (applyGravity (updateTiles dt gm.grid)).1,
                       state := State.REFILLING } := by
  unfold update
  dsimp only
  rw [if_neg h, hs]

theorem update_refilling (dt : ℚ) (rnd : Rand) (gm : Game) (h : ¬ gm.waitTimer > 0)
    (hs : gm.state = State.REFILLING) :
    update dt rnd gm =
      if (refillTop rnd (updateTiles dt gm.grid)).2 = true then
        some { gm with grid := (refillTop rnd (updateTiles dt gm.grid)).1,
                       state := State.FALLING, waitTimer := 1 / 10 }
      else if (getMatches (refillTop rnd (updateTiles dt gm.grid)).1).length > 0 then
        some { gm with grid := (refillTop rnd (updateTiles dt gm.grid)).1,
                       state := State.MATCHING }
      else
        some { gm with grid := (refillTop rnd (updateTiles dt gm.grid)).1,
                       state := State.IDLE } := by
  unfold update
  dsimp only
  rw [if_neg h, hs]

/-! ## Coordinate sync -/

theorem synced_iff_at (g : Grid) :
    Synced g ↔ ∀ (r c : Nat) (t : Tile), g.at r c = some t → t.row = r ∧ t.col = c := by
  constructor
  · intro h r c t ht
    by_cases hr : r < 9
    · by_cases hc : c < 9
      · rw [Grid.at_of_lt g hr hc] at ht
        exact h ⟨r, hr⟩ ⟨c, hc⟩ t ht
      · rw [Grid.at_col_ge g r (by omega)] at ht; cases ht
    · rw [Grid.at_row_ge g c (by omega)] at ht; cases ht
  · intro h r c t ht
    exact h r.val c.val t (by rw [Grid.at_fin]; exact ht)

theorem synced_set (g : Grid) (r c : Nat) (v : Option Tile) (hg : Synced g)
    (hv : ∀ t, v = some t → t.row = r ∧ t.col = c) : Synced (g.set r c v) := by
  intro r' c' t ht
  rw [Grid.set_apply] at ht
  split at ht
  · next h => rw [h.1, h.2]; exact hv t ht
  · exact hg r' c' t ht

theorem synced_empty : Synced Grid.empty := by
  intro r c t h
  cases h

theorem synced_demoGrid : Synced demoGrid := by
  intro r c t h
  simp only [demoGrid, Option.some.injEq] at h
  subst h
  simp [Tile.new]

theorem initBoard_synced (fuel : Nat) (rnd : Rand) (g : Grid) (hg : Synced g)
    (res : Grid × Rand) (h : initBoard fuel rnd g = some res) : Synced res.1 := by
  have key : ∀ s, initBoard fuel rnd g = some s → Synced s.1 := by
    unfold initBoard
    refine forUp_inv (fun _ (st : Option (Grid × Rand)) => ∀ s, st = some s → Synced s.1)
      9 _ _ ?_ ?_
    · intro s hs
      cases hs
      exact hg
    · intro r st _ hst
      refine forUp_inv (fun _ (st : Option (Grid × Rand)) => ∀ s, st = some s → Synced s.1)
        9 _ _ hst ?_
      intro c st _ hst s hs
      unfold initCell at hs
      rcases st with _ | s0
      · simp at hs
      · simp only [Option.some_bind, Option.map_eq_some'] at hs
        obtain ⟨p, _, rfl⟩ := hs
        apply synced_set _ _ _ _ (hst s0 rfl)
        intro t ht
        simp only [Option.some.injEq] at ht
        subst ht
        simp [Tile.new]
  exact key res h

theorem swapCells_synced (g : Grid) (r1 c1 r2 c2 : Fin 9) (hg : Synced g) :
    Synced (swapCells g r1 c1 r2 c2) := by
  unfold swapCells
  simp only []
  apply synced_set
  · apply synced_set _ _ _ _ hg
    intro t ht
    obtain ⟨t0, _, rfl⟩ := Option.map_eq_some'.mp ht
    simp [Tile.moveTo]
  · intro t ht
    obtain ⟨t0, _, rfl⟩ := Option.map_eq_some'.mp ht
    simp [Tile.moveTo]

theorem gravityStep_synced (c : Nat) (st : Grid × List Nat × Bool) (n : Nat)
    (h : Synced st.1) : Synced (gravityStep c st n).1 := by
  unfold gravityStep
  cases hcell : st.1.at n c with
  | none => exact h
  | some t =>
      rcases hes : st.2.1 with _ | ⟨targetR, rest⟩
      · exact h
      · simp only []
        apply synced_set
        · apply synced_set _ _ _ _ h
          intro t' ht'
          simp only [Option.some.injEq] at ht'
          subst ht'
          exact ⟨rfl, ((synced_iff_at st.1).mp h n c t hcell).2⟩
        · intro t' ht'; cases ht'

theorem applyGravity_synced (g : Grid) (hg : Synced g) : Synced (applyGravity g).1 := by
  unfold applyGravity
  refine forUp_inv (fun _ (st : Grid × Bool) => Synced st.1) 9 _ _ hg ?_
  intro c st _ hst
  simp only []
  exact forDown_inv (fun _ (s : Grid × List Nat × Bool) => Synced s.1) (gravityStep c) 9
    (st.1, [], st.2) hst (fun n s _ hs => gravityStep_synced c s n hs)

theorem refillTop_synced (rnd : Rand) (g : Grid) (hg : Synced g) :
    Synced (refillTop rnd g).1 := by
  unfold refillTop
  simp only []
  refine forUp_inv (fun _ (st : Grid × Rand × Bool) => Synced st.1) 9 _ _ hg ?_
  intro c st _ hst
  unfold refillStep
  cases hcell : st.1.at 0 c with
  | none =>
      simp only []
      apply synced_set _ _ _ _ hst
      intro t ht
      simp only [Option.some.injEq] at ht
      subst ht
      simp [Tile.new]
  | some t => exact hst

theorem updateTiles_synced (dt : ℚ) (g : Grid) (hg : Synced g) : Synced (updateTiles dt g) := by
  intro r c t ht
  rw [updateTiles_apply] at ht
  obtain ⟨t0, h0, rfl⟩ := Option.map_eq_some'.mp ht
  rw [Tile.update_row, Tile.update_col]
  exact hg r c t0 h0

theorem markFading_synced (ms : List (Nat × Nat)) :
    ∀ g : Grid, Synced g → Synced (markFading g ms) := by
  induction ms with
  | nil => intro g hg; exact hg
  | cons p ps ih =>
      intro g hg
      unfold markFading
      rw [List.foldl_cons]
      apply ih
      cases hcell : g.at p.1 p.2 with
      | none => exact hg
      | some t =>
          simp only []
          apply synced_set _ _ _ _ hg
          intro t' ht'
          simp only [Option.some.injEq] at ht'
          subst ht'
          exact (synced_iff_at g).mp hg p.1 p.2 t hcell

theorem clearFaded_synced (g : Grid) (hg : Synced g) : Synced (clearFaded g) := by
  intro r c t ht
  rw [clearFaded_apply] at ht
  obtain ⟨t0, h0, h1⟩ := Option.bind_eq_some.mp ht
  split at h1
  · cases h1
  · rw [← Option.some.inj h1]
    exact hg r c t0 h0

theorem update_synced (dt : ℚ) (rnd : Rand) (gm gm' : Game) (hg : Synced gm.grid)
    (h : update dt rnd gm = some gm') : Synced gm'.grid := by
  have hu : Synced (updateTiles dt gm.grid) := updateTiles_synced dt gm.grid hg
  by_cases hw : gm.waitTimer > 0
  · rw [update_wait dt rnd gm hw] at h
    obtain rfl := Option.some.inj h
    dsimp only
    exact hu
  · cases hs : gm.state with
    | IDLE =>
        rw [update_idle dt rnd gm hw hs] at h
        obtain rfl := Option.some.inj h
        dsimp only
        exact hu
    | ROLLBACK =>
        cases hd : gm.swapBackData with
        | none =>
            rw [update_rollback_none dt rnd gm hw hs hd] at h
            exact absurd h (by simp)
        | some d =>
            rw [update_rollback dt rnd gm hw hs d hd] at h
            obtain rfl := Option.some.inj h
            dsimp only
            rw [swapTiles_grid]
            dsimp only
            exact swapCells_synced _ _ _ _ _ hu
    | MATCHING =>
        rw [update_matching dt rnd gm hw hs] at h
        split at h
        · obtain rfl := Option.some.inj h
          dsimp only
          exact markFading_synced _ _ hu
        · obtain rfl := Option.some.inj h
          dsimp only
          exact hu
    | FADING =>
        rw [update_fading dt rnd gm hw hs] at h
        obtain rfl := Option.some.inj h
        dsimp only
        exact clearFaded_synced _ hu
    | FALLING =>
        rw [update_falling dt rnd gm hw hs] at h
        split at h
        · obtain rfl := Option.some.inj h
          dsimp only
          exact applyGravity_synced _ hu
        · obtain rfl := Option.some.inj h
          dsimp only
          exact applyGravity_synced _ hu
    | REFILLING =>
        rw [update_refilling dt rnd gm hw hs] at h
        split at h
        · obtain rfl := Option.some.inj h
          dsimp only
          exact refillTop_synced _ _ hu
        · split at h
          · obtain rfl := Option.some.inj h
            dsimp only
            exact refillTop_synced _ _ hu
          · obtain rfl := Option.some.inj h
            dsimp only
            exact refillTop_synced _ _ hu

theorem handleClick_synced (mx my : ℚ) (gm : Game) (hg : Synced gm.grid) :
    Synced (handleClick mx my gm).grid := by
  unfold handleClick
  simp only []
  split
  · exact hg
  · split
    · split
      · split
        · simp only [swapTiles_grid]
          exact swapCells_synced _ _ _ _ _ hg
        · exact hg
      · exact hg
    · exact hg

theorem reachable_synced (gm : Game) (h : Reachable gm) : Synced gm.grid := by
  induction h with
  | init fuel rnd gm hnew =>
      unfold Game.new at hnew
      obtain ⟨res, hres, rfl⟩ := Option.map_eq_some'.mp hnew
      exact initBoard_synced fuel rnd Grid.empty synced_empty res hres
  | click mx my gm _ ih => exact handleClick_synced mx my gm ih
  | frame dt rnd gm gm' _ _ hup ih => exact update_synced dt rnd gm gm' ih hup

/-- C9. Coordinate sync. If every non-empty cell `(r, c)` of the grid holds a tile
with `row = r` and `col = c`, then the same holds after `initBoard`, after
`swapTiles` on any two cells of the grid, after `applyGravity`, after
`refillTop` and after any `update(dt)` step; hence it holds in every reachable
state. -/
theorem sync_invariant (g : Grid) (hg : Synced g) :
    (∀ fuel rnd res, initBoard fuel rnd g = some res → Synced res.1) ∧
    (∀ (gm : Game) (r1 c1 r2 c2 : Fin 9) (rb : Bool), gm.grid = g →
      Synced (swapTiles gm r1 c1 r2 c2 rb).grid) ∧
    Synced (applyGravity g).1 ∧
    (∀ rnd, Synced (refillTop rnd g).1) ∧
    (∀ (dt : ℚ) (rnd : Rand) (gm gm' : Game), gm.grid = g →
      update dt rnd gm = some gm' → Synced gm'.grid) ∧
    (∀ gm, Reachable gm → Synced gm.grid) := by
  refine ⟨fun fuel rnd res h => initBoard_synced fuel rnd g hg res h, ?_,
    applyGravity_synced g hg, fun rnd => refillTop_synced rnd g hg, ?_, reachable_synced⟩
  · intro gm r1 c1 r2 c2 rb e
    rw [swapTiles_grid, e]
    exact swapCells_synced g r1 c1 r2 c2 hg
  · intro dt rnd gm gm' e h
    exact update_synced dt rnd gm gm' (by rw [e]; exact hg) h

theorem sync_invariant_witness :
    Synced demoGrid ∧ Synced (applyGravity demoGrid).1 ∧
      (∀ rnd, Synced (refillTop rnd demoGrid).1) :=
  ⟨synced_demoGrid, (sync_invariant demoGrid synced_demoGrid).2.2.1,
    (sync_invariant demoGrid synced_demoGrid).2.2.2.1⟩

/-! ## Score -/

theorem isRun_congr (a b d a' b' d' : Option Tile)
    (ha : a.map Tile.charIndex = a'.map Tile.charIndex)
    (hb : b.map Tile.charIndex = b'.map Tile.charIndex)
    (hd : d.map Tile.charIndex = d'.map Tile.charIndex) :
    isRun a b d = isRun a' b' d' := by
  rw [Bool.eq_iff_iff, isRun_iff, isRun_iff, ha, hb, hd]

/-- The result of `getMatches` depends only on the kinds stored in the cells. -/
theorem getMatches_congr (g g' : Grid) (h : ∀ r c, kindAt g r c = kindAt g' r c) :
    getMatches g = getMatches g' := by
  have e : ∀ r1 c1 r2 c2 r3 c3,
      isRun (g.at r1 c1) (g.at r2 c2) (g.at r3 c3) =
        isRun (g'.at r1 c1) (g'.at r2 c2) (g'.at r3 c3) :=
    fun r1 c1 r2 c2 r3 c3 => isRun_congr _ _ _ _ _ _ (h r1 c1) (h r2 c2) (h r3 c3)
  unfold getMatches
  simp only [e]

theorem kindAt_fin (g : Grid) (r c : Fin 9) :
    kindAt g r.val c.val = (g r c).map Tile.charIndex := by
  unfold kindAt
  rw [Grid.at_fin]

/-- Two grids with the same kinds at all cells of the grid agree on `kindAt`. -/
theorem kindAt_congr (g g' : Grid)
    (h : ∀ r c : Fin 9, (g r c).map Tile.charIndex = (g' r c).map Tile.charIndex) :
    ∀ r c, kindAt g r c = kindAt g' r c := by
  intro r c
  by_cases hr : r < 9
  · by_cases hc : c < 9
    · have := h ⟨r, hr⟩ ⟨c, hc⟩
      rw [← kindAt_fin, ← kindAt_fin] at this
      exact this
    · simp [kindAt, Grid.at_col_ge _ r (Nat.le_of_not_lt hc)]
  · simp [kindAt, Grid.at_row_ge _ c (Nat.le_of_not_lt hr)]

theorem getMatches_updateTiles (dt : ℚ) (g : Grid) :
    getMatches (updateTiles dt g) = getMatches g := by
  apply getMatches_congr
  apply kindAt_congr
  intro r c
  rw [updateTiles_apply]
  cases g r c with
  | none => rfl
  | some t => simp [Tile.update_charIndex]

theorem length_getMatches (g : Grid) : (getMatches g).length = runCount g := by
  unfold runCount
  rw [← List.toFinset_card_of_nodup (nodup_getMatches g)]
  congr 1
  ext p
  obtain ⟨r, c⟩ := p
  simp only [List.mem_toFinset, mem_getMatches_iff, Finset.mem_filter, Finset.mem_product,
    Finset.mem_range]
  constructor
  · intro h
    exact ⟨⟨h.1, h.2.1⟩, h⟩
  · intro h
    exact h.2

/-- C5. For every game, a frame of `update` that executes the MATCHING step
(state MATCHING, `waitTimer <= 0`) adds to the score exactly 10 times the number
of distinct cells lying in a run of three or more tiles of one kind, and every
other frame of `update` leaves the score unchanged. -/
theorem update_score (dt : ℚ) (rnd : Rand) (gm gm' : Game)
    (h : update dt rnd gm = some gm') :
    gm'.score =
      if gm.state = State.MATCHING ∧ gm.waitTimer ≤ 0 then gm.score + 10 * runCount gm.grid
      else gm.score := by
  by_cases hw : gm.waitTimer > 0
  · rw [update_wait dt rnd gm hw] at h
    obtain rfl := Option.some.inj h
    dsimp only
    rw [if_neg (by rintro ⟨_, h2⟩; exact absurd hw (not_lt.mpr h2))]
  · have hw' : gm.waitTimer ≤ 0 := not_lt.mp hw
    cases hs : gm.state with
    | IDLE =>
        rw [update_idle dt rnd gm hw hs] at h
        obtain rfl := Option.some.inj h
        dsimp only
        rw [if_neg (by simp)]
    | ROLLBACK =>
        cases hd : gm.swapBackData with
        | none =>
            rw [update_rollback_none dt rnd gm hw hs hd] at h
            exact absurd h (by simp)
        | some d =>
            rw [update_rollback dt rnd gm hw hs d hd] at h
            obtain rfl := Option.some.inj h
            dsimp only
            rw [if_neg (by simp)]
            simp [swapTiles]
    | MATCHING =>
        rw [update_matching dt rnd gm hw hs] at h
        rw [if_pos ⟨rfl, hw'⟩]
        rw [getMatches_updateTiles, length_getMatches] at h
        split at h
        · obtain rfl := Option.some.inj h
          dsimp only
          rw [Nat.mul_comm]
        · next h0 =>
            obtain rfl := Option.some.inj h
            dsimp only
            have : runCount gm.grid = 0 := by omega
            rw [this]
            rfl
    | FADING =>
        rw [update_fading dt rnd gm hw hs] at h
        obtain rfl := Option.some.inj h
        dsimp only
        rw [if_neg (by simp)]
    | FALLING =>
        rw [update_falling dt rnd gm hw hs] at h
        rw [if_neg (by simp)]
        split at h
        · obtain rfl := Option.some.inj h
          rfl
        · obtain rfl := Option.some.inj h
          rfl
    | REFILLING =>
        rw [update_refilling dt rnd gm hw hs] at h
        rw [if_neg (by simp)]
        split at h
        · obtain rfl := Option.some.inj h
          rfl
        · split at h
          · obtain rfl := Option.some.inj h
            rfl
          · obtain rfl := Option.some.inj h
            rfl

set_option maxRecDepth 100000 in
theorem runCount_demoRunGrid : runCount demoRunGrid = 3 := by decide

set_option maxRecDepth 100000 in
theorem update_score_witness :
    ∃ gm', update 0 demoRand demoRunGame = some gm' ∧ gm'.score = 30 := by
  have hw : ¬ demoRunGame.waitTimer > 0 := by decide
  have hu := update_matching 0 demoRand demoRunGame hw rfl
  have hsome : (update 0 demoRand demoRunGame).isSome = true := by
    rw [hu]; split <;> rfl
  obtain ⟨gm', hgm'⟩ := Option.isSome_iff_exists.mp hsome
  refine ⟨gm', hgm', ?_⟩
  have hsc := update_score 0 demoRand demoRunGame gm' hgm'
  rw [if_pos ⟨rfl, by decide⟩] at hsc
  have e : runCount demoRunGame.grid = 3 := runCount_demoRunGrid
  rw [e] at hsc
  exact hsc

/-! ## Swap and rollback -/

theorem sameCore_refl (g : Grid) : SameCore g g := fun _ _ => rfl

theorem sameCore_trans {g1 g2 g3 : Grid} (h1 : SameCore g1 g2) (h2 : SameCore g2 g3) :
    SameCore g1 g3 := fun r c => (h1 r c).trans (h2 r c)

theorem sameKinds_refl (g : Grid) : SameKinds g g := fun _ _ => rfl

theorem sameKinds_trans {g1 g2 g3 : Grid} (h1 : SameKinds g1 g2) (h2 : SameKinds g2 g3) :
    SameKinds g1 g3 := fun r c => (h1 r c).trans (h2 r c)

theorem sameKinds_symm {g1 g2 : Grid} (h : SameKinds g1 g2) : SameKinds g2 g1 :=
  fun r c => (h r c).symm

theorem sameCore_updateTiles (dt : ℚ) (g : Grid) : SameCore (updateTiles dt g) g := by
  intro r c
  rw [updateTiles_apply]
  cases g r c with
  | none => rfl
  | some t => simp [Tile.core, Tile.update_charIndex, Tile.update_row, Tile.update_col]

theorem sameKinds_updateTiles (dt : ℚ) (g : Grid) : SameKinds (updateTiles dt g) g := by
  intro r c
  rw [updateTiles_apply]
  cases g r c with
  | none => rfl
  | some t => simp [Tile.update_charIndex]

theorem map_core_moveTo (o o' : Option Tile) (r c : Nat)
    (h : o.map Tile.core = o'.map Tile.core) :
    (o.map (Tile.moveTo r c)).map Tile.core = (o'.map (Tile.moveTo r c)).map Tile.core := by
  cases o <;> cases o' <;> simp [Tile.core, Tile.moveTo] at h ⊢
  exact h.1

theorem map_kind_moveTo (o : Option Tile) (r c : Nat) :
    (o.map (Tile.moveTo r c)).map Tile.charIndex = o.map Tile.charIndex := by
  cases o <;> simp [Tile.moveTo]

theorem sameCore_swapCells (g g' : Grid) (r1 c1 r2 c2 : Fin 9) (h : SameCore g g') :
    SameCore (swapCells g r1 c1 r2 c2) (swapCells g' r1 c1 r2 c2) := by
  intro r c
  by_cases h2 : r = r2 ∧ c = c2
  · obtain ⟨rfl, rfl⟩ := h2
    rw [swapCells_second, swapCells_second]
    exact map_core_moveTo _ _ _ _ (h r1 c1)
  · by_cases h1 : r = r1 ∧ c = c1
    · obtain ⟨rfl, rfl⟩ := h1
      rw [swapCells_first, swapCells_first]
      exact map_core_moveTo _ _ _ _ (h r2 c2)
    · rw [swapCells_other _ _ _ _ _ _ _ h1 h2, swapCells_other _ _ _ _ _ _ _ h1 h2]
      exact h r c

theorem sameKinds_swapCells (g g' : Grid) (r1 c1 r2 c2 : Fin 9) (h : SameKinds g g') :
    SameKinds (swapCells g r1 c1 r2 c2) (swapCells g' r1 c1 r2 c2) := by
  intro r c
  by_cases h2 : r = r2 ∧ c = c2
  · obtain ⟨rfl, rfl⟩ := h2
    rw [swapCells_second, swapCells_second, map_kind_moveTo, map_kind_moveTo]
    exact h r1 c1
  · by_cases h1 : r = r1 ∧ c = c1
    · obtain ⟨rfl, rfl⟩ := h1
      rw [swapCells_first, swapCells_first, map_kind_moveTo, map_kind_moveTo]
      exact h r2 c2
    · rw [swapCells_other _ _ _ _ _ _ _ h1 h2, swapCells_other _ _ _ _ _ _ _ h1 h2]
      exact h r c

theorem map_core_moveTo_back (o : Option Tile) (r c : Fin 9) (r' c' : Nat)
    (h : ∀ t, o = some t → t.row = r.val ∧ t.col = c.val) :
    ((o.map (Tile.moveTo r' c')).map (Tile.moveTo r.val c.val)).map Tile.core =
      o.map Tile.core := by
  cases o with
  | none => rfl
  | some t =>
      obtain ⟨e1, e2⟩ := h t rfl
      simp [Tile.core, Tile.moveTo, e1, e2]

/-- Exchanging the same two cells twice restores kinds and stored coordinates,
provided the stored coordinates were those of the cells. -/
theorem swapCells_twice (g : Grid) (r1 c1 r2 c2 : Fin 9) (hg : Synced g) :
    SameCore (swapCells (swapCells g r1 c1 r2 c2) r1 c1 r2 c2) g := by
  intro r c
  by_cases h2 : r = r2 ∧ c = c2
  · obtain ⟨rfl, rfl⟩ := h2
    rw [swapCells_second, swapCells_first]
    exact map_core_moveTo_back _ r c _ _ (hg r c)
  · by_cases h1 : r = r1 ∧ c = c1
    · obtain ⟨rfl, rfl⟩ := h1
      rw [swapCells_first, swapCells_second]
      exact map_core_moveTo_back _ r c _ _ (hg r c)
    · rw [swapCells_other _ _ _ _ _ _ _ h1 h2, swapCells_other _ _ _ _ _ _ _ h1 h2]

/-- Exchanging the same two cells twice restores the kinds of every cell. -/
theorem swapCells_twice_kinds (g : Grid) (r1 c1 r2 c2 : Fin 9) :
    SameKinds (swapCells (swapCells g r1 c1 r2 c2) r1 c1 r2 c2) g := by
  intro r c
  by_cases h2 : r = r2 ∧ c = c2
  · obtain ⟨rfl, rfl⟩ := h2
    rw [swapCells_second, swapCells_first, map_kind_moveTo, map_kind_moveTo]
  · by_cases h1 : r = r1 ∧ c = c1
    · obtain ⟨rfl, rfl⟩ := h1
      rw [swapCells_first, swapCells_second, map_kind_moveTo, map_kind_moveTo]
    · rw [swapCells_other _ _ _ _ _ _ _ h1 h2, swapCells_other _ _ _ _ _ _ _ h1 h2]

theorem alike_refl (P : Prop) (g : Grid) : Alike P g g :=
  ⟨sameKinds_refl g, fun _ => sameCore_refl g⟩

theorem alike_trans {P : Prop} {g1 g2 g3 : Grid} (h1 : Alike P g1 g2) (h2 : Alike P g2 g3) :
    Alike P g1 g3 :=
  ⟨sameKinds_trans h1.1 h2.1, fun p => sameCore_trans (h1.2 p) (h2.2 p)⟩

theorem alike_updateTiles (P : Prop) (dt : ℚ) (g : Grid) : Alike P (updateTiles dt g) g :=
  ⟨sameKinds_updateTiles dt g, fun _ => sameCore_updateTiles dt g⟩

theorem alike_swapCells (P : Prop) (g g' : Grid) (r1 c1 r2 c2 : Fin 9) (h : Alike P g g') :
    Alike P (swapCells g r1 c1 r2 c2) (swapCells g' r1 c1 r2 c2) :=
  ⟨sameKinds_swapCells g g' r1 c1 r2 c2 h.1, fun p => sameCore_swapCells g g' r1 c1 r2 c2 (h.2 p)⟩

theorem alike_swapCells_twice (g : Grid) (r1 c1 r2 c2 : Fin 9) :
    Alike (Synced g) (swapCells (swapCells g r1 c1 r2 c2) r1 c1 r2 c2) g :=
  ⟨swapCells_twice_kinds g r1 c1 r2 c2, fun hg => swapCells_twice g r1 c1 r2 c2 hg⟩

/-- A waiting frame keeps the state and the pending swap, keeps kinds and stored
coordinates of the tiles, and takes `dt` off the timer. -/
theorem wait_frame (P : Prop) (g0 : Grid) (dt : ℚ) (rnd : Rand) (gm : Game)
    (hc : Alike P gm.grid g0) (hw : gm.waitTimer > 0) :
    ∃ gm', update dt rnd gm = some gm' ∧ gm'.state = gm.state ∧
      gm'.swapBackData = gm.swapBackData ∧ Alike P gm'.grid g0 ∧
      gm'.waitTimer = gm.waitTimer - dt := by
  refine ⟨_, update_wait dt rnd gm hw, rfl, rfl, ?_, rfl⟩
  dsimp only
  exact alike_trans (alike_updateTiles P dt gm.grid) hc

/-- The ROLLBACK step exchanges the pending cells back and enters IDLE. -/
theorem rollback_step (g0 : Grid) (d : Fin 9 × Fin 9 × Fin 9 × Fin 9) (dt : ℚ) (rnd : Rand)
    (gm : Game) (hs : gm.state = State.ROLLBACK) (hd : gm.swapBackData = some d)
    (hc : Alike (Synced g0) gm.grid (swapCells g0 d.1 d.2.1 d.2.2.1 d.2.2.2))
    (hw : ¬ gm.waitTimer > 0) :
    ∃ gm', update dt rnd gm = some gm' ∧ gm'.state = State.IDLE ∧
      Alike (Synced g0) gm'.grid g0 := by
  refine ⟨_, update_rollback dt rnd gm hw hs d hd, rfl, ?_⟩
  dsimp only
  rw [swapTiles_grid]
  dsimp only
  exact alike_trans
    (alike_swapCells _ _ _ _ _ _ _ (alike_trans (alike_updateTiles _ dt gm.grid) hc))
    (alike_swapCells_twice g0 _ _ _ _)

/-- Frames in IDLE change neither the state nor the kinds and stored
coordinates of the tiles. -/
theorem idle_frame (P : Prop) (g0 : Grid) (dt : ℚ) (rnd : Rand) (gm : Game)
    (hs : gm.state = State.IDLE) (hc : Alike P gm.grid g0) :
    ∃ gm', update dt rnd gm = some gm' ∧ gm'.state = State.IDLE ∧ Alike P gm'.grid g0 := by
  by_cases hw : gm.waitTimer > 0
  · refine ⟨_, update_wait dt rnd gm hw, hs, ?_⟩
    dsimp only
    exact alike_trans (alike_updateTiles P dt gm.grid) hc
  · refine ⟨_, update_idle dt rnd gm hw hs, hs, ?_⟩
    dsimp only
    exact alike_trans (alike_updateTiles P dt gm.grid) hc

theorem idle_frames (P : Prop) (g0 : Grid) (fs : List (ℚ × Rand)) :
    ∀ gm : Game, gm.state = State.IDLE → Alike P gm.grid g0 →
      ∃ gm', runFrames fs gm = some gm' ∧ gm'.state = State.IDLE ∧ Alike P gm'.grid g0 := by
  induction fs with
  | nil => intro gm hs hc; exact ⟨gm, rfl, hs, hc⟩
  | cons f fs ih =>
      intro gm hs hc
      obtain ⟨gm1, h1, hs1, hc1⟩ := idle_frame P g0 f.1 f.2 gm hs hc
      obtain ⟨gm2, h2, hs2, hc2⟩ := ih gm1 hs1 hc1
      exact ⟨gm2, by simp [runFrames, h1, h2], hs2, hc2⟩

theorem rollback_frames (g0 : Grid) (d : Fin 9 × Fin 9 × Fin 9 × Fin 9)
    (fs : List (ℚ × Rand)) :
    ∀ gm : Game, gm.state = State.ROLLBACK → gm.swapBackData = some d →
      Alike (Synced g0) gm.grid (swapCells g0 d.1 d.2.1 d.2.2.1 d.2.2.2) →
      ∃ gm', runFrames fs gm = some gm' ∧
        ((gm'.state = State.ROLLBACK ∧ gm'.swapBackData = some d ∧
            Alike (Synced g0) gm'.grid (swapCells g0 d.1 d.2.1 d.2.2.1 d.2.2.2) ∧
            gm'.waitTimer = gm.waitTimer - (fs.map Prod.fst).sum) ∨
          (gm'.state = State.IDLE ∧ Alike (Synced g0) gm'.grid g0)) := by
  induction fs with
  | nil =>
      intro gm hs hd hc
      exact ⟨gm, rfl, Or.inl ⟨hs, hd, hc, by simp⟩⟩
  | cons f fs ih =>
      intro gm hs hd hc
      by_cases hw : gm.waitTimer > 0
      · obtain ⟨gm1, h1, hs1, hd1, hc1, ht1⟩ := wait_frame _ _ f.1 f.2 gm hc hw
        obtain ⟨gm2, h2, hres⟩ := ih gm1 (hs1.trans hs) (hd1.trans hd) hc1
        refine ⟨gm2, by simp [runFrames, h1, h2], ?_⟩
        rcases hres with ⟨a, b, c, e⟩ | hdone
        · refine Or.inl ⟨a, b, c, ?_⟩
          rw [e, ht1, List.map_cons, List.sum_cons]
          ring
        · exact Or.inr hdone
      · obtain ⟨gm1, h1, hs1, hc1⟩ := rollback_step g0 d f.1 f.2 gm hs hd hc hw
        obtain ⟨gm2, h2, hs2, hc2⟩ := idle_frames _ g0 fs gm1 hs1 hc1
        exact ⟨gm2, by simp [runFrames, h1, h2], Or.inr ⟨hs2, hc2⟩⟩

/-- C3. Take any grid and two cells whose exchange leaves `getMatches` empty.
After `swapTiles(r1, c1, r2, c2)` and any run of `update(dt)` frames, the run
does not throw and the machine is either still in ROLLBACK, its timer being
`ANIMATION_TIME` minus the time elapsed, or in IDLE with the pre-swap grid. In
particular the frame that executes the ROLLBACK step (state ROLLBACK,
`waitTimer <= 0`) ends in IDLE with the pre-swap grid. "The pre-swap grid"
means: every cell holds a tile of the same kind as before the swap (empty cells
stay empty), and every tile's stored `(row, col)` equals its pre-swap value when
the pre-swap tiles stored the coordinates of their cells, which is the Board
invariant of every reachable state. Fullness of the grid, adjacency of the two
cells and `dt >= 0` are not needed. -/
theorem swap_rollback_roundtrip (gm : Game) (r1 c1 r2 c2 : Fin 9)
    (hno : getMatches (swapCells gm.grid r1 c1 r2 c2) = [])
    (fs : List (ℚ × Rand)) :
    ∃ gm1, runFrames fs (swapTiles gm r1 c1 r2 c2 true) = some gm1 ∧
      ((gm1.state = State.ROLLBACK ∧
          gm1.waitTimer = ANIMATION_TIME - (fs.map Prod.fst).sum) ∨
        (gm1.state = State.IDLE ∧ SameKinds gm1.grid gm.grid ∧
          (Synced gm.grid → SameCore gm1.grid gm.grid))) ∧
      (gm1.state = State.ROLLBACK → gm1.waitTimer ≤ 0 → ∀ (dt : ℚ) (rnd : Rand),
        ∃ gm2, update dt rnd gm1 = some gm2 ∧ gm2.state = State.IDLE ∧
          SameKinds gm2.grid gm.grid ∧ (Synced gm.grid → SameCore gm2.grid gm.grid)) := by
  have hsw : swapTiles gm r1 c1 r2 c2 true =
      { gm with grid := swapCells gm.grid r1 c1 r2 c2, state := State.ROLLBACK,
                waitTimer := ANIMATION_TIME, swapBackData := some (r1, c1, r2, c2) } := by
    simp [swapTiles, hno]
  rw [hsw]
  obtain ⟨gm1, h1, hres⟩ := rollback_frames gm.grid (r1, c1, r2, c2) fs
    { gm with grid := swapCells gm.grid r1 c1 r2 c2, state := State.ROLLBACK,
              waitTimer := ANIMATION_TIME, swapBackData := some (r1, c1, r2, c2) }
    rfl rfl (alike_refl _ _)
  refine ⟨gm1, h1, ?_, ?_⟩
  · rcases hres with ⟨a, _, _, e⟩ | hdone
    · exact Or.inl ⟨a, e⟩
    · exact Or.inr hdone
  · intro hs hw dt rnd
    rcases hres with ⟨_, b, c, _⟩ | hdone
    · exact rollback_step gm.grid (r1, c1, r2, c2) dt rnd gm1 hs b c (not_lt.mpr hw)
    · rw [hdone.1] at hs
      cases hs

set_option maxRecDepth 100000 in
theorem swap_rollback_roundtrip_witness :
    ∃ gm1 gm2, runFrames [(1 / 4, demoRand), (1 / 4, demoRand)]
        (swapTiles demoIdle 0 0 0 1 true) = some gm1 ∧
      update (1 / 60) demoRand gm1 = some gm2 ∧
      gm2.state = State.IDLE ∧ SameCore gm2.grid demoGrid := by
  obtain ⟨gm1, h1, h2, h3⟩ := swap_rollback_roundtrip demoIdle 0 0 0 1
    (by decide) [(1 / 4, demoRand), (1 / 4, demoRand)]
  rcases h2 with ⟨hs, ht⟩ | ⟨hs, hc⟩
  · have hw : gm1.waitTimer ≤ 0 := by
      rw [ht]
      norm_num [ANIMATION_TIME]
    obtain ⟨gm2, e1, e2, _, e3⟩ := h3 hs hw (1 / 60) demoRand
    exact ⟨gm1, gm2, h1, e1, e2, e3 synced_demoGrid⟩
  · obtain ⟨gm2, e1, e2, e3⟩ := idle_frame (Synced demoGrid) demoGrid (1 / 60) demoRand gm1 hs hc
    exact ⟨gm1, gm2, h1, e1, e2, e3.2 synced_demoGrid⟩

/-! ## The machine invariant -/

theorem noWin_congr (g g' : Grid) (h : SameKinds g g') (hg : NoWin g') : NoWin g := by
  have e := kindAt_congr g g' h
  constructor
  · intro r c hw
    apply hg.1 r c
    unfold Window3 at hw ⊢
    simpa only [e] using hw
  · intro r c hw
    apply hg.2 r c
    unfold Window3 at hw ⊢
    simpa only [e] using hw

theorem full_congr (g g' : Grid) (h : SameKinds g g') (hg : g'.Full) : g.Full := by
  intro r c hn
  have := h r c
  rw [hn] at this
  cases h' : g' r c with
  | none => exact hg r c h'
  | some t => rw [h'] at this; cases this

theorem full_updateTiles (dt : ℚ) (g : Grid) (hg : g.Full) : (updateTiles dt g).Full :=
  full_congr _ _ (sameKinds_updateTiles dt g) hg

theorem full_swapCells (g : Grid) (r1 c1 r2 c2 : Fin 9) (hg : g.Full) :
    (swapCells g r1 c1 r2 c2).Full := by
  intro r c
  by_cases h2 : r = r2 ∧ c = c2
  · obtain ⟨rfl, rfl⟩ := h2
    rw [swapCells_second]
    have := hg r1 c1
    cases h : g r1 c1 with
    | none => exact absurd h this
    | some t => simp
  · by_cases h1 : r = r1 ∧ c = c1
    · obtain ⟨rfl, rfl⟩ := h1
      rw [swapCells_first]
      have := hg r2 c2
      cases h : g r2 c2 with
      | none => exact absurd h this
      | some t => simp
    · rw [swapCells_other _ _ _ _ _ _ _ h1 h2]
      exact hg r c

theorem at_updateTiles_eq_none (dt : ℚ) (g : Grid) (r c : Nat) :
    (updateTiles dt g).at r c = none ↔ g.at r c = none := by
  by_cases hr : r < 9
  · by_cases hc : c < 9
    · rw [Grid.at_of_lt _ hr hc, Grid.at_of_lt _ hr hc, updateTiles_apply]
      cases g ⟨r, hr⟩ ⟨c, hc⟩ <;> simp
    · simp [Grid.at_col_ge _ r (Nat.le_of_not_lt hc)]
  · simp [Grid.at_row_ge _ c (Nat.le_of_not_lt hr)]

theorem compact_updateTiles (dt : ℚ) (g : Grid) (hg : Compact g) :
    Compact (updateTiles dt g) := by
  intro c r hr hn r' hr'
  rw [at_updateTiles_eq_none] at hn ⊢
  exact hg c r hr hn r' hr'

/-- A compact grid whose top row has no empty cell is full. -/
theorem full_of_compact (g : Grid) (hg : Compact g) (htop : ∀ c : Fin 9, g 0 c ≠ none) :
    g.Full := by
  intro r c hn
  by_cases h0 : r.val = 0
  · have : r = 0 := Fin.ext h0
    subst this
    exact htop c hn
  · have h1 := hg c.val r.val r.isLt (by rw [Grid.at_fin]; exact hn) 0 (by omega)
    exact htop c (by rw [← h1]; exact (Grid.at_fin g 0 c).symm)

/-- When `refillTop` reports that it filled nothing, the grid is unchanged and
its top row has no empty cell. -/
theorem refillTop_unfilled (rnd : Rand) (g : Grid) (h : (refillTop rnd g).2 = false) :
    (refillTop rnd g).1 = g ∧ ∀ c : Fin 9, g 0 c ≠ none := by
  obtain ⟨hkeep, _, hret⟩ := refillTop_inv rnd g
  have h' : (forUp 9 refillStep (g, rnd, false)).2.2 = false := h
  have htop : ∀ c : Fin 9, g 0 c ≠ none := by
    intro c hn
    have := hret.mpr ⟨c.val, c.isLt, by rw [← hn]; exact Grid.at_fin g 0 c⟩
    rw [h'] at this
    cases this
  refine ⟨?_, htop⟩
  apply Grid.ext_at
  intro r c hr hc
  apply hkeep r c hr hc
  by_cases h0 : r = 0
  · subst h0
    exact Or.inr (Or.inl (by rw [Grid.at_of_lt g hr hc]; exact htop ⟨c, hc⟩))
  · exact Or.inl h0

theorem noWin_of_length (g : Grid) (h : ¬ (getMatches g).length > 0) : NoWin g := by
  rw [← getMatches_eq_nil_iff, ← List.length_eq_zero]
  omega

theorem update_inv (dt : ℚ) (rnd : Rand) (gm gm' : Game) (hinv : MachineInv gm)
    (h : update dt rnd gm = some gm') : MachineInv gm' := by
  by_cases hw : gm.waitTimer > 0
  · rw [update_wait dt rnd gm hw] at h
    obtain rfl := Option.some.inj h
    unfold MachineInv at hinv ⊢
    dsimp only
    cases hs : gm.state with
    | IDLE =>
        rw [hs] at hinv
        dsimp only at hinv ⊢
        exact ⟨full_updateTiles dt _ hinv.1, noWin_congr _ _ (sameKinds_updateTiles dt _) hinv.2⟩
    | ROLLBACK =>
        rw [hs] at hinv
        dsimp only at hinv ⊢
        obtain ⟨hf, d, hd, hn⟩ := hinv
        exact ⟨full_updateTiles dt _ hf, d, hd,
          noWin_congr _ _ (sameKinds_swapCells _ _ _ _ _ _ (sameKinds_updateTiles dt _)) hn⟩
    | MATCHING =>
        rw [hs] at hinv
        dsimp only at hinv ⊢
        exact full_updateTiles dt _ hinv
    | FADING => trivial
    | FALLING => trivial
    | REFILLING =>
        rw [hs] at hinv
        dsimp only at hinv ⊢
        exact compact_updateTiles dt _ hinv
  · cases hs : gm.state with
    | IDLE =>
        rw [update_idle dt rnd gm hw hs] at h
        obtain rfl := Option.some.inj h
        unfold MachineInv at hinv ⊢
        rw [hs] at hinv
        dsimp only at hinv ⊢
        rw [hs]
        dsimp only
        exact ⟨full_updateTiles dt _ hinv.1, noWin_congr _ _ (sameKinds_updateTiles dt _) hinv.2⟩
    | ROLLBACK =>
        unfold MachineInv at hinv
        rw [hs] at hinv
        dsimp only at hinv
        obtain ⟨hf, d, hd, hn⟩ := hinv
        rw [update_rollback dt rnd gm hw hs d hd] at h
        obtain rfl := Option.some.inj h
        unfold MachineInv
        dsimp only
        rw [swapTiles_grid]
        dsimp only
        exact ⟨full_swapCells _ _ _ _ _ (full_updateTiles dt _ hf),
          noWin_congr _ _ (sameKinds_swapCells _ _ _ _ _ _ (sameKinds_updateTiles dt _)) hn⟩
    | MATCHING =>
        unfold MachineInv at hinv
        rw [hs] at hinv
        dsimp only at hinv
        rw [update_matching dt rnd gm hw hs] at h
        split at h
        · obtain rfl := Option.some.inj h
          trivial
        · next hlen =>
            obtain rfl := Option.some.inj h
            unfold MachineInv
            dsimp only
            exact ⟨full_updateTiles dt _ hinv, noWin_of_length _ hlen⟩
    | FADING =>
        rw [update_fading dt rnd gm hw hs] at h
        obtain rfl := Option.some.inj h
        trivial
    | FALLING =>
        rw [update_falling dt rnd gm hw hs] at h
        split at h
        · obtain rfl := Option.some.inj h
          unfold MachineInv
          dsimp only
          rw [hs]
          trivial
        · obtain rfl := Option.some.inj h
          unfold MachineInv
          dsimp only
          exact applyGravity_compact _
    | REFILLING =>
        unfold MachineInv at hinv
        rw [hs] at hinv
        dsimp only at hinv
        rw [update_refilling dt rnd gm hw hs] at h
        split at h
        · obtain rfl := Option.some.inj h
          trivial
        · next hre =>
            have hre' : (refillTop rnd (updateTiles dt gm.grid)).2 = false := by
              simpa using hre
            obtain ⟨e, htop⟩ := refillTop_unfilled rnd _ hre'
            have hfull : (refillTop rnd (updateTiles dt gm.grid)).1.Full := by
              rw [e]
              exact full_of_compact _ (compact_updateTiles dt _ hinv) htop
            split at h
            · obtain rfl := Option.some.inj h
              unfold MachineInv
              dsimp only
              exact hfull
            · next hlen =>
                obtain rfl := Option.some.inj h
                unfold MachineInv
                dsimp only
                exact ⟨hfull, noWin_of_length _ hlen⟩


theorem machineInv_congr (gm gm' : Game) (h1 : gm'.state = gm.state) (h2 : gm'.grid = gm.grid)
    (h3 : gm'.swapBackData = gm.swapBackData) (h : MachineInv gm) : MachineInv gm' := by
  unfold MachineInv at h ⊢
  rw [h1, h2, h3]
  exact h

theorem swapTiles_inv (gm : Game) (r1 c1 r2 c2 : Fin 9) (hf : gm.grid.Full)
    (hn : NoWin gm.grid) : MachineInv (swapTiles gm r1 c1 r2 c2 true) := by
  have hf' := full_swapCells gm.grid r1 c1 r2 c2 hf
  by_cases hlen : (getMatches (swapCells gm.grid r1 c1 r2 c2)).length = 0
  · have e : swapTiles gm r1 c1 r2 c2 true =
        { gm with grid := swapCells gm.grid r1 c1 r2 c2, state := State.ROLLBACK,
                  waitTimer := ANIMATION_TIME, swapBackData := some (r1, c1, r2, c2) } := by
      simp [swapTiles, hlen]
    rw [e]
    unfold MachineInv
    dsimp only
    exact ⟨hf', (r1, c1, r2, c2), rfl,
      noWin_congr _ _ (swapCells_twice_kinds gm.grid r1 c1 r2 c2) hn⟩
  · have e : swapTiles gm r1 c1 r2 c2 true =
        { gm with grid := swapCells gm.grid r1 c1 r2 c2, state := State.MATCHING,
                  waitTimer := ANIMATION_TIME } := by
      simp [swapTiles, hlen]
    rw [e]
    unfold MachineInv
    dsimp only
    exact hf'

theorem handleClick_inv (mx my : ℚ) (gm : Game) (hinv : MachineInv gm) :
    MachineInv (handleClick mx my gm) := by
  unfold handleClick
  dsimp only
  split
  · exact hinv
  · next hs =>
      have hs' : gm.state = State.IDLE := not_not.mp hs
      have hidle : gm.grid.Full ∧ NoWin gm.grid := by
        unfold MachineInv at hinv
        rw [hs'] at hinv
        exact hinv
      split
      · split
        · split
          · exact machineInv_congr _ _ rfl rfl rfl (swapTiles_inv gm _ _ _ _ hidle.1 hidle.2)
          · exact machineInv_congr _ _ rfl rfl rfl hinv
        · exact machineInv_congr _ _ rfl rfl rfl hinv
      · exact hinv

theorem new_inv (fuel : Nat) (rnd : Rand) (gm : Game) (h : Game.new fuel rnd = some gm) :
    MachineInv gm := by
  unfold Game.new at h
  obtain ⟨res, hres, rfl⟩ := Option.map_eq_some'.mp h
  obtain ⟨h1, _, h3⟩ := initBoard_inv fuel rnd Grid.empty
    (fun r c => by unfold Grid.at Grid.empty; split <;> [split; skip] <;> rfl)
    noWin_empty res hres
  unfold MachineInv
  dsimp only
  refine ⟨?_, h3⟩
  intro r c
  rw [← Grid.at_fin res.1 r c]
  exact h1 r.val c.val r.isLt c.isLt (by omega)

theorem reachable_inv (gm : Game) (h : Reachable gm) : MachineInv gm := by
  induction h with
  | init fuel rnd gm hnew => exact new_inv fuel rnd gm hnew
  | click mx my gm _ ih => exact handleClick_inv mx my gm ih
  | frame dt rnd gm gm' _ _ hup ih => exact update_inv dt rnd gm gm' ih hup

/-- A frame never throws in a state that satisfies the machine invariant: in
ROLLBACK the pending swap is present. -/
theorem update_total (dt : ℚ) (rnd : Rand) (gm : Game) (hinv : MachineInv gm) :
    ∃ gm', update dt rnd gm = some gm' := by
  by_cases hw : gm.waitTimer > 0
  · exact ⟨_, update_wait dt rnd gm hw⟩
  · cases hs : gm.state with
    | IDLE => exact ⟨_, update_idle dt rnd gm hw hs⟩
    | ROLLBACK =>
        unfold MachineInv at hinv
        rw [hs] at hinv
        obtain ⟨_, d, hd, _⟩ := hinv
        exact ⟨_, update_rollback dt rnd gm hw hs d hd⟩
    | MATCHING =>
        rw [update_matching dt rnd gm hw hs]
        split <;> exact ⟨_, rfl⟩
    | FADING => exact ⟨_, update_fading dt rnd gm hw hs⟩
    | FALLING =>
        rw [update_falling dt rnd gm hw hs]
        split <;> exact ⟨_, rfl⟩
    | REFILLING =>
        rw [update_refilling dt rnd gm hw hs]
        split
        · exact ⟨_, rfl⟩
        · split <;> exact ⟨_, rfl⟩

/-- C4. In every state reachable from a freshly initialised game by any
interleaving of `handleClick` events and `update(dt)` frames with `dt >= 0`,
whenever the machine state is IDLE the grid has no empty cell and `getMatches`
is empty; this covers the return to IDLE of the cascade started by a
match-producing swap. -/
theorem idle_invariant (gm : Game) (h : Reachable gm) (hs : gm.state = State.IDLE) :
    gm.grid.Full ∧ getMatches gm.grid = [] := by
  have hinv := reachable_inv gm h
  unfold MachineInv at hinv
  rw [hs] at hinv
  exact ⟨hinv.1, (getMatches_eq_nil_iff _).mpr hinv.2⟩

theorem idle_invariant_witness :
    ∃ gm, Reachable gm ∧ gm.state = State.IDLE ∧ gm.grid.Full ∧ getMatches gm.grid = [] := by
  have h : (Game.new 1 demoRand).isSome = true := by decide
  obtain ⟨gm, hgm⟩ := Option.isSome_iff_exists.mp h
  have hr : Reachable gm := Reachable.init 1 demoRand gm hgm
  have hs : gm.state = State.IDLE := by
    unfold Game.new at hgm
    obtain ⟨res, _, rfl⟩ := Option.map_eq_some'.mp hgm
    rfl
  exact ⟨gm, hr, hs, idle_invariant gm hr hs⟩

/-! ## Clicks in IDLE -/

/-- In IDLE, a click that falls in cell `(r, c)` of the grid. -/
theorem handleClick_cell (mx my : ℚ) (gm : Game) (hs : gm.state = State.IDLE) (r c : Fin 9)
    (hrow : ⌊(my - OFFSET_Y) / TILE_SIZE⌋ = (r.val : Int))
    (hcol : ⌊(mx - OFFSET_X) / TILE_SIZE⌋ = (c.val : Int)) :
    handleClick mx my gm =
      match gm.selected with
      | some (r1, c1) =>
          if Adjacent r1 c1 r c then { swapTiles gm r1 c1 r c true with selected := none }
          else { gm with selected := some (r, c) }
      | none => { gm with selected := some (r, c) } := by
  have hr : (⌊(my - OFFSET_Y) / TILE_SIZE⌋).toNat = r.val := by rw [hrow]; simp
  have hc : (⌊(mx - OFFSET_X) / TILE_SIZE⌋).toNat = c.val := by rw [hcol]; simp
  have hb : ⌊(my - OFFSET_Y) / TILE_SIZE⌋ ≥ 0 ∧ ⌊(my - OFFSET_Y) / TILE_SIZE⌋ < 9 ∧
      ⌊(mx - OFFSET_X) / TILE_SIZE⌋ ≥ 0 ∧ ⌊(mx - OFFSET_X) / TILE_SIZE⌋ < 9 := by
    rw [hrow, hcol]
    have := r.isLt
    have := c.isLt
    omega
  unfold handleClick
  rw [if_neg (by rw [hs]; simp)]
  dsimp only
  rw [dif_pos hb]
  have er : (⟨(⌊(my - OFFSET_Y) / TILE_SIZE⌋).toNat, by omega⟩ : Fin 9) = r := Fin.ext hr
  have ec : (⟨(⌊(mx - OFFSET_X) / TILE_SIZE⌋).toNat, by omega⟩ : Fin 9) = c := Fin.ext hc
  rw [er, ec, hrow, hcol]
  rfl


/-- In IDLE, a click outside the grid changes nothing. -/
theorem handleClick_outside (mx my : ℚ) (gm : Game)
    (hout : ¬ (⌊(my - OFFSET_Y) / TILE_SIZE⌋ ≥ 0 ∧ ⌊(my - OFFSET_Y) / TILE_SIZE⌋ < 9 ∧
      ⌊(mx - OFFSET_X) / TILE_SIZE⌋ ≥ 0 ∧ ⌊(mx - OFFSET_X) / TILE_SIZE⌋ < 9)) :
    handleClick mx my gm = gm := by
  unfold handleClick
  split
  · rfl
  · dsimp only
    rw [dif_neg hout]

theorem not_adjacent_self (r c : Fin 9) : ¬ Adjacent r c r c := by
  unfold Adjacent
  simp

/-- C11. In IDLE, for a click that falls in cell `(r, c)` of the grid while a cell
`(r1, c1)` is selected: if `(r, c)` is the selected cell itself or is not
orthogonally adjacent to it, `handleClick` only sets the selection to `(r, c)`
and leaves the grid, the machine state and everything else unchanged; if
`(r, c)` is orthogonally adjacent to the selected cell, `handleClick` is the
player swap of exactly those two cells, every other cell being unchanged, with
the selection cleared. A click outside the 9×9 grid changes nothing. -/
theorem handleClick_idle (mx my : ℚ) (gm : Game) (hs : gm.state = State.IDLE) :
    (∀ r c r1 c1 : Fin 9,
      ⌊(my - OFFSET_Y) / TILE_SIZE⌋ = (r.val : Int) →
      ⌊(mx - OFFSET_X) / TILE_SIZE⌋ = (c.val : Int) →
      gm.selected = some (r1, c1) →
        ((r = r1 ∧ c = c1) ∨ ¬ Adjacent r1 c1 r c →
          handleClick mx my gm = { gm with selected := some (r, c) }) ∧
        (Adjacent r1 c1 r c →
          handleClick mx my gm = { swapTiles gm r1 c1 r c true with selected := none } ∧
          (handleClick mx my gm).grid r1 c1 = (gm.grid r c).map (Tile.moveTo r1 c1) ∧
          (handleClick mx my gm).grid r c = (gm.grid r1 c1).map (Tile.moveTo r c) ∧
          (∀ r' c' : Fin 9, ¬ (r' = r1 ∧ c' = c1) → ¬ (r' = r ∧ c' = c) →
            (handleClick mx my gm).grid r' c' = gm.grid r' c'))) ∧
    (¬ (⌊(my - OFFSET_Y) / TILE_SIZE⌋ ≥ 0 ∧ ⌊(my - OFFSET_Y) / TILE_SIZE⌋ < 9 ∧
        ⌊(mx - OFFSET_X) / TILE_SIZE⌋ ≥ 0 ∧ ⌊(mx - OFFSET_X) / TILE_SIZE⌋ < 9) →
      handleClick mx my gm = gm) := by
  refine ⟨?_, handleClick_outside mx my gm⟩
  intro r c r1 c1 hrow hcol hsel
  have hcell := handleClick_cell mx my gm hs r c hrow hcol
  rw [hsel] at hcell
  dsimp only at hcell
  constructor
  · intro h
    have hna : ¬ Adjacent r1 c1 r c := by
      rcases h with ⟨rfl, rfl⟩ | h
      · exact not_adjacent_self r c
      · exact h
    rw [hcell, if_neg hna]
  · intro hadj
    rw [if_pos hadj] at hcell
    rw [hcell]
    dsimp only
    rw [swapTiles_grid]
    exact ⟨rfl, swapCells_first _ _ _ _ _, swapCells_second _ _ _ _ _,
      fun r' c' h1 h2 => swapCells_other _ _ _ _ _ _ _ h1 h2⟩

theorem handleClick_idle_witness :
    (handleClick 100 160 demoSelected).selected = none ∧
      (handleClick 100 160 demoSelected).grid 0 0 = (demoGrid 0 1).map (Tile.moveTo 0 0) ∧
      (handleClick 100 160 demoSelected).grid 0 1 = (demoGrid 0 0).map (Tile.moveTo 0 1) := by
  have h := ((handleClick_idle 100 160 demoSelected rfl).1 0 1 0 0
    (by norm_num [OFFSET_Y, TILE_SIZE, Int.floor_eq_iff])
    (by norm_num [OFFSET_X, TILE_SIZE, Int.floor_eq_iff]) rfl).2 (by decide)
  refine ⟨?_, h.2.1, h.2.2.1⟩
  rw [h.1]

/-! ## The REFILLING step -/

/-- What `refillTop` does to the cells, from its loop invariant. -/
theorem refillTop_cells (rnd : Rand) (g : Grid) :
    (∀ r c : Fin 9, (r.val ≠ 0 ∨ g r c ≠ none) → (refillTop rnd g).1 r c = g r c) ∧
    (∀ c : Fin 9, g 0 c = none → (refillTop rnd g).1 0 c ≠ none) ∧
    ((refillTop rnd g).2 = true ↔ ∃ c : Fin 9, g 0 c = none) := by
  obtain ⟨hkeep, hnew, hret⟩ := refillTop_inv rnd g
  refine ⟨?_, ?_, ?_⟩
  · intro r c h
    have := hkeep r.val c.val r.isLt c.isLt (by
      rcases h with h | h
      · exact Or.inl h
      · exact Or.inr (Or.inl (by rw [Grid.at_fin]; exact h)))
    rw [Grid.at_fin, Grid.at_fin] at this
    exact this
  · intro c h
    obtain ⟨k, hk⟩ := hnew c.val c.isLt (by rw [← h]; exact Grid.at_fin g 0 c)
    have e : (forUp 9 refillStep (g, rnd, false)).1.at 0 c.val = (refillTop rnd g).1 0 c :=
      Grid.at_fin (refillTop rnd g).1 0 c
    rw [← e, hk]
    simp
  · show (forUp 9 refillStep (g, rnd, false)).2.2 = true ↔ _
    rw [hret]
    constructor
    · rintro ⟨c, hc, hn⟩
      exact ⟨⟨c, hc⟩, by rw [← hn]; exact (Grid.at_fin g 0 ⟨c, hc⟩).symm⟩
    · rintro ⟨c, hn⟩
      exact ⟨c.val, c.isLt, by rw [← hn]; exact Grid.at_fin g 0 c⟩

theorem updateTiles_eq_none (dt : ℚ) (g : Grid) (r c : Fin 9) :
    updateTiles dt g r c = none ↔ g r c = none := by
  rw [updateTiles_apply]
  cases g r c <;> simp

/-- C12. When `update` executes the REFILLING step (state REFILLING,
`waitTimer <= 0`), the frame returns a game and: if row 0 has at least one
empty cell, every empty cell of row 0 receives a tile, no other cell is touched
by the step, and the machine moves to FALLING with a positive wait timer; if
row 0 has no empty cell, the step leaves the grid as the tile loop of the frame
left it (same cells, same kinds, same stored coordinates) and the next state is
MATCHING when `getMatches` is non-empty and IDLE when it is empty. -/
theorem update_refilling_step (dt : ℚ) (rnd : Rand) (gm : Game)
    (hs : gm.state = State.REFILLING) (hw : gm.waitTimer ≤ 0) :
    ∃ gm', update dt rnd gm = some gm' ∧
      ((∃ c : Fin 9, gm.grid 0 c = none) →
        gm'.state = State.FALLING ∧ 0 < gm'.waitTimer ∧
        (∀ c : Fin 9, gm.grid 0 c = none → gm'.grid 0 c ≠ none) ∧
        (∀ r c : Fin 9, (r.val ≠ 0 ∨ gm.grid r c ≠ none) →
          gm'.grid r c = updateTiles dt gm.grid r c)) ∧
      ((∀ c : Fin 9, gm.grid 0 c ≠ none) →
        gm'.grid = updateTiles dt gm.grid ∧ SameCore gm'.grid gm.grid ∧
        (getMatches gm.grid ≠ [] → gm'.state = State.MATCHING) ∧
        (getMatches gm.grid = [] → gm'.state = State.IDLE)) := by
  have hw' : ¬ gm.waitTimer > 0 := not_lt.mpr hw
  obtain ⟨hkeep, hnew, hret⟩ := refillTop_cells rnd (updateTiles dt gm.grid)
  have hex : (∃ c : Fin 9, updateTiles dt gm.grid 0 c = none) ↔ ∃ c : Fin 9, gm.grid 0 c = none := by
    constructor
    · rintro ⟨c, h⟩; exact ⟨c, (updateTiles_eq_none dt gm.grid 0 c).mp h⟩
    · rintro ⟨c, h⟩; exact ⟨c, (updateTiles_eq_none dt gm.grid 0 c).mpr h⟩
  rw [update_refilling dt rnd gm hw' hs]
  by_cases hre : (refillTop rnd (updateTiles dt gm.grid)).2 = true
  · rw [if_pos hre]
    refine ⟨_, rfl, ?_, ?_⟩
    · intro _
      dsimp only
      refine ⟨rfl, by norm_num, ?_, ?_⟩
      · intro c hc
        exact hnew c ((updateTiles_eq_none dt gm.grid 0 c).mpr hc)
      · intro r c hrc
        apply hkeep r c
        rcases hrc with h | h
        · exact Or.inl h
        · exact Or.inr (fun h' => h ((updateTiles_eq_none dt gm.grid r c).mp h'))
    · intro hfull
      exfalso
      obtain ⟨c, hc⟩ := hex.mp (hret.mp hre)
      exact hfull c hc
  · rw [if_neg hre]
    have hre' : (refillTop rnd (updateTiles dt gm.grid)).2 = false := by simpa using hre
    obtain ⟨e, _⟩ := refillTop_unfilled rnd _ hre'
    rw [e, getMatches_updateTiles]
    by_cases hlen : (getMatches gm.grid).length > 0
    · rw [if_pos hlen]
      refine ⟨_, rfl, ?_, ?_⟩
      · intro hex'
        exact absurd (hret.mpr (hex.mpr hex')) hre
      · intro _
        dsimp only
        refine ⟨rfl, sameCore_updateTiles dt gm.grid, fun _ => rfl, ?_⟩
        intro hnil
        rw [hnil] at hlen
        simp at hlen
    · rw [if_neg hlen]
      refine ⟨_, rfl, ?_, ?_⟩
      · intro hex'
        exact absurd (hret.mpr (hex.mpr hex')) hre
      · intro _
        dsimp only
        refine ⟨rfl, sameCore_updateTiles dt gm.grid, ?_, fun _ => rfl⟩
        intro hne
        exact absurd (List.length_pos.mpr hne) hlen

theorem update_refilling_step_witness :
    ∃ gm', update (1 / 60) demoRand demoRefill = some gm' ∧
      gm'.state = State.FALLING ∧ 0 < gm'.waitTimer ∧ gm'.grid 0 2 ≠ none := by
  obtain ⟨gm', h1, h2, _⟩ := update_refilling_step (1 / 60) demoRand demoRefill rfl (by decide)
  have hempty : demoRefill.grid 0 2 = none := by decide
  obtain ⟨a, b, c, _⟩ := h2 ⟨2, hempty⟩
  exact ⟨gm', h1, a, b, c 2 hempty⟩

/-! ## Gravity on a compact grid -/

theorem gravityStep_still (g0 : Grid) (m0 : Bool) (c : Nat) (hcomp : ColCompact g0 c)
    (n : Nat) (hn : n < 9) (st : Grid × List Nat × Bool) (h : StillInv g0 m0 c (n + 1) st) :
    StillInv g0 m0 c n (gravityStep c st n) := by
  obtain ⟨g, es, moved⟩ := st
  obtain ⟨hg, hm, hes⟩ := h
  simp only [] at hg hm hes
  subst hg
  unfold gravityStep
  dsimp only
  cases hcell : g.at n c with
  | none =>
      exact ⟨rfl, hm, fun _ => ⟨n, le_refl n, hn, hcell⟩⟩
  | some t =>
      cases es with
      | nil => exact ⟨rfl, hm, fun h => absurd rfl h⟩
      | cons targetR rest =>
          exfalso
          obtain ⟨r, hr1, hr2, hr3⟩ := hes (by simp)
          have := hcomp r hr2 hr3 n (by omega)
          rw [hcell] at this
          cases this

theorem gravityColumn_still (g0 : Grid) (m0 : Bool) (c : Nat) (hcomp : ColCompact g0 c) :
    (forDown (gravityStep c) 9 (g0, [], m0)).1 = g0 ∧
      (forDown (gravityStep c) 9 (g0, [], m0)).2.2 = m0 := by
  have h := forDown_inv (fun n st => StillInv g0 m0 c n st) (gravityStep c) 9 (g0, [], m0)
    ⟨rfl, rfl, fun h => absurd rfl h⟩
    (fun n st hn hst => gravityStep_still g0 m0 c hcomp n hn st hst)
  exact ⟨h.1, h.2.1⟩

/-- On a compact grid `applyGravity` moves nothing. -/
theorem applyGravity_still (g : Grid) (hg : Compact g) : applyGravity g = (g, false) := by
  unfold applyGravity
  refine forUp_inv (fun _ (st : Grid × Bool) => st = (g, false)) 9 _ _ rfl ?_
  intro c st _ hst
  subst hst
  dsimp only
  obtain ⟨h1, h2⟩ := gravityColumn_still g false c (hg c)
  rw [h1, h2]

/-- C14. For every grid, after a single call of `applyGravity` every column is
compact: no empty cell lies below a non-empty cell of the same column.
Consequently a second call made right after moves nothing: it returns false and
leaves the grid unchanged. And `applyGravity` returns true exactly when the
call changed the grid. -/
theorem applyGravity_once (g : Grid) :
    Compact (applyGravity g).1 ∧
      applyGravity (applyGravity g).1 = ((applyGravity g).1, false) ∧
      ((applyGravity g).2 = true ↔ (applyGravity g).1 ≠ g) := by
  refine ⟨applyGravity_compact g, applyGravity_still _ (applyGravity_compact g), ?_⟩
  constructor
  · intro hmoved hsame
    have hc : Compact g := by
      have := applyGravity_compact g
      rwa [hsame] at this
    have := applyGravity_still g hc
    rw [this] at hmoved
    cases hmoved
  · intro hne
    by_contra hmoved
    exact hne (applyGravity_unmoved g (by simpa using hmoved))

/-! ## Fading -/

theorem Tile.update_isFading (t : Tile) (dt : ℚ) : (t.update dt).isFading = t.isFading := by
  unfold Tile.update
  dsimp only
  split <;> split <;> rfl

theorem Tile.update_alpha (t : Tile) (dt : ℚ) :
    (t.update dt).alpha =
      if t.isFading = true then
        (if t.alpha - (1 / FADE_TIME) * dt < 0 then 0 else t.alpha - (1 / FADE_TIME) * dt)
      else t.alpha := by
  unfold Tile.update
  dsimp only
  by_cases hf : t.isFading = true
  · rw [if_pos hf]
    split <;> simp [hf]
  · rw [if_neg hf]
    split <;> simp [hf]

theorem Tile.update_clean (t : Tile) (dt : ℚ) (h : t.Clean) : (t.update dt).Clean := by
  obtain ⟨h1, h2⟩ := h
  refine ⟨by rw [Tile.update_isFading]; exact h1, ?_⟩
  rw [Tile.update_alpha, h1]
  simpa using h2

theorem Tile.update_fades (t : Tile) (w dt : ℚ) (hdt : 0 ≤ dt) (h : t.Fades w) :
    (t.update dt).Fades (w - dt) := by
  obtain ⟨h1, h2⟩ := h
  refine ⟨by rw [Tile.update_isFading]; exact h1, ?_⟩
  rw [Tile.update_alpha, if_pos h1]
  have hk : (0 : ℚ) ≤ 1 / FADE_TIME * dt := by
    apply mul_nonneg _ hdt
    norm_num [FADE_TIME]
  split
  · exact Or.inl (le_refl 0)
  · rcases h2 with h2 | h2
    · left; linarith
    · right
      have : 1 / FADE_TIME * (w - dt) = 1 / FADE_TIME * w - 1 / FADE_TIME * dt := by ring
      rw [this]
      linarith

/-- Once the fade timer has run out, a marked tile has no opacity left after the
tile loop of the next frame. -/
theorem Tile.update_faded (t : Tile) (w dt : ℚ) (hdt : 0 ≤ dt) (hw : w ≤ 0) (h : t.Fades w) :
    (t.update dt).alpha ≤ 0 := by
  have h' := Tile.update_fades t w dt hdt h
  rcases h'.2 with h2 | h2
  · exact h2
  · have hk : (0 : ℚ) ≤ 1 / FADE_TIME := by norm_num [FADE_TIME]
    have : 1 / FADE_TIME * (w - dt) ≤ 0 := mul_nonpos_of_nonneg_of_nonpos hk (by linarith)
    linarith

theorem Tile.fades_alpha (t : Tile) (w : ℚ) (hw : w ≤ 0) (h : t.Fades w) : t.alpha ≤ 0 := by
  rcases h.2 with h2 | h2
  · exact h2
  · have hk : (0 : ℚ) ≤ 1 / FADE_TIME := by norm_num [FADE_TIME]
    have : 1 / FADE_TIME * w ≤ 0 := mul_nonpos_of_nonneg_of_nonpos hk hw
    linarith

theorem Tile.clean_alpha (t : Tile) (h : t.Clean) : ¬ t.alpha ≤ 0 := by
  rw [h.2]
  norm_num

theorem Tile.clean_not_fades (t : Tile) (w : ℚ) (h : t.Clean) : ¬ t.Fades w := by
  intro h'
  have := h'.1
  rw [h.1] at this
  cases this


/-! ## Properties of all tiles -/

theorem allTiles_iff_at (Q : Tile → Prop) (g : Grid) :
    AllTiles Q g ↔ ∀ (r c : Nat) (t : Tile), g.at r c = some t → Q t := by
  constructor
  · intro h r c t ht
    by_cases hr : r < 9
    · by_cases hc : c < 9
      · rw [Grid.at_of_lt g hr hc] at ht
        exact h ⟨r, hr⟩ ⟨c, hc⟩ t ht
      · rw [Grid.at_col_ge g r (by omega)] at ht; cases ht
    · rw [Grid.at_row_ge g c (by omega)] at ht; cases ht
  · intro h r c t ht
    exact h r.val c.val t (by rw [Grid.at_fin]; exact ht)

theorem allTiles_set (Q : Tile → Prop) (g : Grid) (r c : Nat) (v : Option Tile)
    (hg : AllTiles Q g) (hv : ∀ t, v = some t → Q t) : AllTiles Q (g.set r c v) := by
  intro r' c' t ht
  rw [Grid.set_apply] at ht
  split at ht
  · exact hv t ht
  · exact hg r' c' t ht

theorem allTiles_mono (Q Q' : Tile → Prop) (g : Grid) (h : ∀ t, Q t → Q' t)
    (hg : AllTiles Q g) : AllTiles Q' g :=
  fun r c t ht => h t (hg r c t ht)

theorem allTiles_initBoard (Q : Tile → Prop) (hQ : ∀ (r c : Int) (k : Nat), Q (Tile.new r c k))
    (fuel : Nat) (rnd : Rand) (g : Grid) (hg : AllTiles Q g)
    (res : Grid × Rand) (h : initBoard fuel rnd g = some res) : AllTiles Q res.1 := by
  have key : ∀ s, initBoard fuel rnd g = some s → AllTiles Q s.1 := by
    unfold initBoard
    refine forUp_inv (fun _ (st : Option (Grid × Rand)) => ∀ s, st = some s → AllTiles Q s.1)
      9 _ _ ?_ ?_
    · intro s hs
      cases hs
      exact hg
    · intro r st _ hst
      refine forUp_inv (fun _ (st : Option (Grid × Rand)) => ∀ s, st = some s → AllTiles Q s.1)
        9 _ _ hst ?_
      intro c st _ hst s hs
      unfold initCell at hs
      rcases st with _ | s0
      · simp at hs
      · simp only [Option.some_bind, Option.map_eq_some'] at hs
        obtain ⟨p, _, rfl⟩ := hs
        apply allTiles_set _ _ _ _ _ (hst s0 rfl)
        intro t ht
        simp only [Option.some.injEq] at ht
        subst ht
        exact hQ _ _ _
  exact key res h

theorem allTiles_swapCells (Q : Tile → Prop) (hQ : ∀ (t : Tile) (r c : Nat), Q t → Q (t.moveTo r c))
    (g : Grid) (r1 c1 r2 c2 : Fin 9) (hg : AllTiles Q g) :
    AllTiles Q (swapCells g r1 c1 r2 c2) := by
  unfold swapCells
  dsimp only
  apply allTiles_set
  · apply allTiles_set _ _ _ _ _ hg
    intro t ht
    obtain ⟨t0, h0, rfl⟩ := Option.map_eq_some'.mp ht
    exact hQ t0 _ _ (hg r2 c2 t0 h0)
  · intro t ht
    obtain ⟨t0, h0, rfl⟩ := Option.map_eq_some'.mp ht
    exact hQ t0 _ _ (hg r1 c1 t0 h0)

theorem allTiles_gravityStep (Q : Tile → Prop)
    (hQ : ∀ (t : Tile) (row : Int), Q t → Q { t with row := row })
    (c : Nat) (st : Grid × List Nat × Bool) (n : Nat)
    (h : AllTiles Q st.1) : AllTiles Q (gravityStep c st n).1 := by
  unfold gravityStep
  cases hcell : st.1.at n c with
  | none => exact h
  | some t =>
      rcases hes : st.2.1 with _ | ⟨targetR, rest⟩
      · exact h
      · dsimp only
        apply allTiles_set
        · apply allTiles_set _ _ _ _ _ h
          intro t' ht'
          simp only [Option.some.injEq] at ht'
          subst ht'
          exact hQ t _ ((allTiles_iff_at Q st.1).mp h n c t hcell)
        · intro t' ht'; cases ht'

theorem allTiles_applyGravity (Q : Tile → Prop)
    (hQ : ∀ (t : Tile) (row : Int), Q t → Q { t with row := row })
    (g : Grid) (hg : AllTiles Q g) : AllTiles Q (applyGravity g).1 := by
  unfold applyGravity
  refine forUp_inv (fun _ (st : Grid × Bool) => AllTiles Q st.1) 9 _ _ hg ?_
  intro c st _ hst
  dsimp only
  exact forDown_inv (fun _ (s : Grid × List Nat × Bool) => AllTiles Q s.1) (gravityStep c) 9
    (st.1, [], st.2) hst (fun n s _ hs => allTiles_gravityStep Q hQ c s n hs)

theorem allTiles_refillTop (Q : Tile → Prop) (hQ : ∀ c k : Nat, Q (refillTile c k))
    (rnd : Rand) (g : Grid) (hg : AllTiles Q g) : AllTiles Q (refillTop rnd g).1 := by
  unfold refillTop
  dsimp only
  refine forUp_inv (fun _ (st : Grid × Rand × Bool) => AllTiles Q st.1) 9 _ _ hg ?_
  intro c st _ hst
  unfold refillStep
  cases hcell : st.1.at 0 c with
  | none =>
      dsimp only
      apply allTiles_set _ _ _ _ _ hst
      intro t ht
      simp only [Option.some.injEq] at ht
      subst ht
      exact hQ c _
  | some t => exact hst

theorem allTiles_updateTiles (Q Q' : Tile → Prop) (dt : ℚ)
    (hQ : ∀ t, Q t → Q' (t.update dt)) (g : Grid) (hg : AllTiles Q g) :
    AllTiles Q' (updateTiles dt g) := by
  intro r c t ht
  rw [updateTiles_apply] at ht
  obtain ⟨t0, h0, rfl⟩ := Option.map_eq_some'.mp ht
  exact hQ t0 (hg r c t0 h0)

/-! ## The fading invariant -/

theorem markFading_nil (g : Grid) : markFading g [] = g := rfl

theorem markFading_cons (g : Grid) (p : Nat × Nat) (ps : List (Nat × Nat)) :
    markFading g (p :: ps) =
      markFading (match g.at p.1 p.2 with
        | some t => g.set p.1 p.2 (some { t with isFading := true })
        | none => g) ps := rfl

/-- The grid after `matches.forEach`: the tiles at the listed cells are marked,
the others are untouched. -/
theorem markFading_apply (ms : List (Nat × Nat)) :
    ∀ (g : Grid) (r c : Fin 9),
      markFading g ms r c =
        if (r.val, c.val) ∈ ms then (g r c).map Tile.mark else g r c := by
  induction ms with
  | nil => intro g r c; simp [markFading_nil]
  | cons p ps ih =>
      intro g r c
      rw [markFading_cons, ih]
      have hstep : (match g.at p.1 p.2 with
          | some t => g.set p.1 p.2 (some { t with isFading := true })
          | none => g) r c =
          if (r.val, c.val) = p then (g r c).map Tile.mark else g r c := by
        by_cases hp : (r.val, c.val) = p
        · rw [if_pos hp]
          subst hp
          dsimp only
          rw [Grid.at_fin]
          cases hcell : g r c with
          | none => simp [hcell]
          | some t => simp [Grid.set_apply, Tile.mark]
        · rw [if_neg hp]
          have hp' : ¬ (r.val = p.1 ∧ c.val = p.2) := by
            rintro ⟨h1, h2⟩
            exact hp (Prod.ext h1 h2)
          cases hcell : g.at p.1 p.2 with
          | none => rfl
          | some t => simp [Grid.set_apply, hp']
      rw [hstep]
      by_cases hp : (r.val, c.val) = p
      · simp only [hp, if_true, List.mem_cons, true_or]
        split
        · cases g r c <;> simp [Tile.mark]
        · rfl
      · simp only [if_neg hp, List.mem_cons, hp, false_or, if_false]

theorem fadeInv_of_clean (gm : Game) (h : AllTiles Tile.Clean gm.grid) : FadeInv gm :=
  allTiles_mono _ _ _ (fun _ ht => Or.inl ht) h

theorem clean_of_fadeInv (gm : Game) (h : FadeInv gm) (hs : gm.state ≠ State.FADING) :
    AllTiles Tile.Clean gm.grid :=
  allTiles_mono _ _ _ (fun _ ht => ht.elim id (fun h' => absurd h'.1 hs)) h

theorem Tile.moveTo_clean (t : Tile) (r c : Nat) (h : t.Clean) : (t.moveTo r c).Clean := h

theorem Tile.mark_fades (t : Tile) (h : t.Clean) : t.mark.Fades FADE_TIME := by
  refine ⟨rfl, Or.inr ?_⟩
  show t.alpha ≤ _
  rw [h.2]
  norm_num [FADE_TIME]

/-- The tiles left by the FADING step are clean. -/
theorem clearFaded_clean (dt : ℚ) (hdt : 0 ≤ dt) (gm : Game) (hinv : FadeInv gm)
    (hw : gm.waitTimer ≤ 0) : AllTiles Tile.Clean (clearFaded (updateTiles dt gm.grid)) := by
  intro r c t ht
  rw [clearFaded_apply, updateTiles_apply] at ht
  obtain ⟨t1, h1, h2⟩ := Option.bind_eq_some.mp ht
  obtain ⟨t0, h0, rfl⟩ := Option.map_eq_some'.mp h1
  split at h2
  · cases h2
  · next hal =>
      rw [← Option.some.inj h2]
      rcases hinv r c t0 h0 with hc | ⟨_, hf⟩
      · exact Tile.update_clean t0 dt hc
      · exact absurd (Tile.update_faded t0 _ dt hdt hw hf) hal

theorem update_fadeInv (dt : ℚ) (hdt : 0 ≤ dt) (rnd : Rand) (gm gm' : Game)
    (hinv : FadeInv gm) (h : update dt rnd gm = some gm') : FadeInv gm' := by
  have hclean : gm.state ≠ State.FADING → AllTiles Tile.Clean (updateTiles dt gm.grid) :=
    fun hs => allTiles_updateTiles _ _ dt (fun t ht => Tile.update_clean t dt ht) _
      (clean_of_fadeInv gm hinv hs)
  by_cases hw : gm.waitTimer > 0
  · rw [update_wait dt rnd gm hw] at h
    obtain rfl := Option.some.inj h
    unfold FadeInv
    dsimp only
    refine allTiles_updateTiles _ _ dt ?_ _ hinv
    intro t ht
    rcases ht with hc | ⟨hs, hf⟩
    · exact Or.inl (Tile.update_clean t dt hc)
    · exact Or.inr ⟨hs, Tile.update_fades t _ dt hdt hf⟩
  · cases hs : gm.state with
    | IDLE =>
        rw [update_idle dt rnd gm hw hs] at h
        obtain rfl := Option.some.inj h
        apply fadeInv_of_clean
        dsimp only
        exact hclean (by rw [hs]; simp)
    | ROLLBACK =>
        cases hd : gm.swapBackData with
        | none =>
            rw [update_rollback_none dt rnd gm hw hs hd] at h
            exact absurd h (by simp)
        | some d =>
            rw [update_rollback dt rnd gm hw hs d hd] at h
            obtain rfl := Option.some.inj h
            apply fadeInv_of_clean
            dsimp only
            rw [swapTiles_grid]
            dsimp only
            exact allTiles_swapCells _ Tile.moveTo_clean _ _ _ _ _ (hclean (by rw [hs]; simp))
    | MATCHING =>
        have hcl := hclean (by rw [hs]; simp)
        rw [update_matching dt rnd gm hw hs] at h
        split at h
        · obtain rfl := Option.some.inj h
          unfold FadeInv
          dsimp only
          intro r c t ht
          rw [markFading_apply] at ht
          split at ht
          · obtain ⟨t0, h0, rfl⟩ := Option.map_eq_some'.mp ht
            exact Or.inr ⟨rfl, Tile.mark_fades t0 (hcl r c t0 h0)⟩
          · exact Or.inl (hcl r c t ht)
        · obtain rfl := Option.some.inj h
          apply fadeInv_of_clean
          dsimp only
          exact hcl
    | FADING =>
        rw [update_fading dt rnd gm hw hs] at h
        obtain rfl := Option.some.inj h
        apply fadeInv_of_clean
        dsimp only
        exact clearFaded_clean dt hdt gm hinv (not_lt.mp hw)
    | FALLING =>
        have hcl := hclean (by rw [hs]; simp)
        rw [update_falling dt rnd gm hw hs] at h
        split at h
        · obtain rfl := Option.some.inj h
          apply fadeInv_of_clean
          dsimp only
          exact allTiles_applyGravity _ (fun _ _ ht => ht) _ hcl
        · obtain rfl := Option.some.inj h
          apply fadeInv_of_clean
          dsimp only
          exact allTiles_applyGravity _ (fun _ _ ht => ht) _ hcl
    | REFILLING =>
        have hcl := hclean (by rw [hs]; simp)
        have hre : AllTiles Tile.Clean (refillTop rnd (updateTiles dt gm.grid)).1 :=
          allTiles_refillTop _ (fun _ _ => ⟨rfl, rfl⟩) rnd _ hcl
        rw [update_refilling dt rnd gm hw hs] at h
        split at h
        · obtain rfl := Option.some.inj h
          apply fadeInv_of_clean
          dsimp only
          exact hre
        · split at h
          · obtain rfl := Option.some.inj h
            apply fadeInv_of_clean
            dsimp only
            exact hre
          · obtain rfl := Option.some.inj h
            apply fadeInv_of_clean
            dsimp only
            exact hre

theorem fadeInv_congr (gm gm' : Game) (h1 : gm'.state = gm.state) (h2 : gm'.grid = gm.grid)
    (h3 : gm'.waitTimer = gm.waitTimer) (h : FadeInv gm) : FadeInv gm' := by
  unfold FadeInv at h ⊢
  rw [h1, h2, h3]
  exact h

theorem handleClick_fadeInv (mx my : ℚ) (gm : Game) (hinv : FadeInv gm) :
    FadeInv (handleClick mx my gm) := by
  unfold handleClick
  dsimp only
  split
  · exact hinv
  · next hs =>
      have hs' : gm.state = State.IDLE := not_not.mp hs
      have hcl := clean_of_fadeInv gm hinv (by rw [hs']; simp)
      split
      · split
        · split
          · apply fadeInv_of_clean
            dsimp only
            rw [swapTiles_grid]
            exact allTiles_swapCells _ Tile.moveTo_clean _ _ _ _ _ hcl
          · exact fadeInv_congr _ _ rfl rfl rfl hinv
        · exact fadeInv_congr _ _ rfl rfl rfl hinv
      · exact hinv

theorem new_fadeInv (fuel : Nat) (rnd : Rand) (gm : Game) (h : Game.new fuel rnd = some gm) :
    FadeInv gm := by
  unfold Game.new at h
  obtain ⟨res, hres, rfl⟩ := Option.map_eq_some'.mp h
  apply fadeInv_of_clean
  dsimp only
  exact allTiles_initBoard _ (fun _ _ _ => ⟨rfl, rfl⟩) fuel rnd Grid.empty
    (fun r c t ht => by cases ht) res hres

theorem reachable_fadeInv (gm : Game) (h : Reachable gm) : FadeInv gm := by
  induction h with
  | init fuel rnd gm hnew => exact new_fadeInv fuel rnd gm hnew
  | click mx my gm _ ih => exact handleClick_fadeInv mx my gm ih
  | frame dt rnd gm gm' _ hdt hup ih => exact update_fadeInv dt hdt rnd gm gm' ih hup

/-! ## A reachable match -/

set_option maxRecDepth 100000 in
theorem new_matchRand : Game.new 1 matchRand = some matchStart := by
  have h : (Game.new 1 matchRand).isSome = true := by decide
  obtain ⟨g, hg⟩ := Option.isSome_iff_exists.mp h
  unfold matchStart
  rw [hg]
  rfl

theorem matchStart_fields : matchStart.state = State.IDLE ∧ matchStart.selected = none := by
  have h := new_matchRand
  unfold Game.new at h
  obtain ⟨res, _, e⟩ := Option.map_eq_some'.mp h
  rw [← e]
  exact ⟨rfl, rfl⟩

set_option maxRecDepth 100000 in
theorem matchStart_swap : getMatches (swapCells matchStart.grid 3 5 4 5) ≠ [] := by decide

theorem floor_row (my : ℚ) (n : Nat) (h1 : OFFSET_Y + n * TILE_SIZE ≤ my)
    (h2 : my < OFFSET_Y + (n + 1) * TILE_SIZE) :
    ⌊(my - OFFSET_Y) / TILE_SIZE⌋ = (n : Int) := by
  rw [Int.floor_eq_iff]
  unfold TILE_SIZE at h1 h2 ⊢
  constructor
  · rw [le_div_iff₀ (by norm_num)]
    push_cast
    linarith
  · rw [div_lt_iff₀ (by norm_num)]
    push_cast
    linarith

theorem floor_col (mx : ℚ) (n : Nat) (h1 : OFFSET_X + n * TILE_SIZE ≤ mx)
    (h2 : mx < OFFSET_X + (n + 1) * TILE_SIZE) :
    ⌊(mx - OFFSET_X) / TILE_SIZE⌋ = (n : Int) := by
  rw [Int.floor_eq_iff]
  unfold TILE_SIZE at h1 h2 ⊢
  constructor
  · rw [le_div_iff₀ (by norm_num)]
    push_cast
    linarith
  · rw [div_lt_iff₀ (by norm_num)]
    push_cast
    linarith

theorem matchClicked_eq :
    matchClicked =
      { swapTiles { matchStart with selected := some (3, 5) } 3 5 4 5 true
        with selected := none } := by
  have r3 : ⌊((331 : ℚ) - OFFSET_Y) / TILE_SIZE⌋ = (((3 : Fin 9).val : Nat) : Int) :=
    floor_row 331 3 (by norm_num [OFFSET_Y, TILE_SIZE]) (by norm_num [OFFSET_Y, TILE_SIZE])
  have r4 : ⌊((391 : ℚ) - OFFSET_Y) / TILE_SIZE⌋ = (((4 : Fin 9).val : Nat) : Int) :=
    floor_row 391 4 (by norm_num [OFFSET_Y, TILE_SIZE]) (by norm_num [OFFSET_Y, TILE_SIZE])
  have c5 : ⌊((331 : ℚ) - OFFSET_X) / TILE_SIZE⌋ = (((5 : Fin 9).val : Nat) : Int) :=
    floor_col 331 5 (by norm_num [OFFSET_X, TILE_SIZE]) (by norm_num [OFFSET_X, TILE_SIZE])
  have h1 : handleClick 331 331 matchStart = { matchStart with selected := some (3, 5) } := by
    rw [handleClick_cell 331 331 matchStart matchStart_fields.1 3 5 r3 c5, matchStart_fields.2]
  have h2 := handleClick_cell 331 391 { matchStart with selected := some (3, 5) }
    (by dsimp only; exact matchStart_fields.1) 4 5 r4 c5
  unfold matchClicked
  rw [h1, h2]
  dsimp only
  rw [if_pos (by decide)]

theorem matchClicked_fields :
    matchClicked.state = State.MATCHING ∧ matchClicked.waitTimer = 1 / 2 ∧
      matchClicked.grid = swapCells matchStart.grid 3 5 4 5 := by
  have hlen : ¬ (getMatches (swapCells matchStart.grid 3 5 4 5)).length = 0 := by
    rw [List.length_eq_zero]
    exact matchStart_swap
  rw [matchClicked_eq]
  dsimp only
  rw [swapTiles_grid]
  refine ⟨?_, ?_, rfl⟩
  · simp [swapTiles, hlen]
  · simp [swapTiles, hlen, ANIMATION_TIME]

theorem reachable_matchClicked : Reachable matchClicked :=
  Reachable.click _ _ _ (Reachable.click _ _ _ (Reachable.init 1 matchRand _ new_matchRand))

theorem matchDue_eq : update (1 / 2) demoRand matchClicked = some matchDue := by
  have hw : matchClicked.waitTimer > 0 := by rw [matchClicked_fields.2.1]; norm_num
  unfold matchDue
  rw [update_wait _ _ _ hw]
  rfl

theorem matchDue_fields :
    matchDue.state = State.MATCHING ∧ matchDue.waitTimer ≤ 0 ∧ getMatches matchDue.grid ≠ [] := by
  have hw : matchClicked.waitTimer > 0 := by rw [matchClicked_fields.2.1]; norm_num
  have h := matchDue_eq
  rw [update_wait _ _ _ hw] at h
  rw [← Option.some.inj h]
  dsimp only
  refine ⟨matchClicked_fields.1, ?_, ?_⟩
  · rw [matchClicked_fields.2.1]; norm_num
  · rw [getMatches_updateTiles, matchClicked_fields.2.2]
    exact matchStart_swap

theorem reachable_matchDue : Reachable matchDue :=
  Reachable.frame (1 / 2) demoRand matchClicked matchDue reachable_matchClicked (by norm_num)
    matchDue_eq

/-! ## Where the grid is full -/

/-- C13. In every state reachable from a freshly initialised game by
`handleClick` events and `update(dt)` frames with `dt >= 0`: whenever the machine
state is MATCHING the grid has no empty cell; whenever the REFILLING step has
just completed without filling any cell (`refillTop` returned false) the grid
has no empty cell; and a grid with an empty cell occurs only in the states
FADING, FALLING and REFILLING. -/
theorem full_outside_cascade (gm : Game) (h : Reachable gm) :
    (gm.state = State.MATCHING → gm.grid.Full) ∧
    (∀ (dt : ℚ) (rnd : Rand) (gm' : Game), gm.state = State.REFILLING → gm.waitTimer ≤ 0 →
      update dt rnd gm = some gm' → (refillTop rnd (updateTiles dt gm.grid)).2 = false →
      gm'.grid.Full) ∧
    (¬ gm.grid.Full →
      gm.state = State.FADING ∨ gm.state = State.FALLING ∨ gm.state = State.REFILLING) := by
  have hinv := reachable_inv gm h
  refine ⟨?_, ?_, ?_⟩
  · intro hs
    unfold MachineInv at hinv
    rw [hs] at hinv
    exact hinv
  · intro dt rnd gm' hs hw hup hre
    have hinv' := update_inv dt rnd gm gm' hinv hup
    rw [update_refilling dt rnd gm (not_lt.mpr hw) hs, if_neg (by rw [hre]; simp)] at hup
    split at hup
    · obtain rfl := Option.some.inj hup
      exact hinv'
    · obtain rfl := Option.some.inj hup
      exact hinv'.1
  · intro hnf
    unfold MachineInv at hinv
    cases hs : gm.state with
    | IDLE => rw [hs] at hinv; exact absurd hinv.1 hnf
    | ROLLBACK => rw [hs] at hinv; exact absurd hinv.1 hnf
    | MATCHING => rw [hs] at hinv; exact absurd hinv hnf
    | FADING => exact Or.inl rfl
    | FALLING => exact Or.inr (Or.inl rfl)
    | REFILLING => exact Or.inr (Or.inr rfl)

theorem full_outside_cascade_witness :
    Reachable matchClicked ∧ matchClicked.state = State.MATCHING ∧ matchClicked.grid.Full :=
  ⟨reachable_matchClicked, matchClicked_fields.1,
    (full_outside_cascade matchClicked reachable_matchClicked).1 matchClicked_fields.1⟩

/-! ## From MATCHING through FADING -/

/-- The MATCHING step on a full grid of clean tiles with at least one run. -/
theorem matching_marks (dt : ℚ) (rnd : Rand) (gm : Game) (hs : gm.state = State.MATCHING)
    (hw : gm.waitTimer ≤ 0) (hm : getMatches gm.grid ≠ []) (hfull : gm.grid.Full)
    (hclean : AllTiles Tile.Clean gm.grid) :
    ∃ gm1, update dt rnd gm = some gm1 ∧ gm1.waitTimer = FADE_TIME ∧
      Marked (getMatches gm.grid) gm1 := by
  have hlen : (getMatches (updateTiles dt gm.grid)).length > 0 := by
    rw [getMatches_updateTiles]
    exact List.length_pos.mpr hm
  rw [update_matching dt rnd gm (not_lt.mpr hw) hs, if_pos hlen]
  refine ⟨_, rfl, rfl, rfl, ?_⟩
  intro r c
  dsimp only
  rw [markFading_apply, getMatches_updateTiles, updateTiles_apply]
  cases hcell : gm.grid r c with
  | none => exact absurd hcell (hfull r c)
  | some t =>
      have hc := Tile.update_clean t dt (hclean r c t hcell)
      by_cases hmem : (r.val, c.val) ∈ getMatches gm.grid
      · rw [if_pos hmem]
        exact ⟨_, rfl, Or.inl ⟨hmem, Tile.mark_fades _ hc⟩⟩
      · rw [if_neg hmem]
        exact ⟨_, rfl, Or.inr ⟨hmem, hc⟩⟩

/-- A waiting frame in FADING. -/
theorem marked_wait (M : List (Nat × Nat)) (dt : ℚ) (hdt : 0 ≤ dt) (rnd : Rand) (gm : Game)
    (h : Marked M gm) (hw : gm.waitTimer > 0) :
    ∃ gm', update dt rnd gm = some gm' ∧ Marked M gm' := by
  refine ⟨_, update_wait dt rnd gm hw, h.1, ?_⟩
  intro r c
  dsimp only
  rw [updateTiles_apply]
  obtain ⟨t, ht, hcases⟩ := h.2 r c
  rw [ht]
  refine ⟨t.update dt, rfl, ?_⟩
  rcases hcases with ⟨hmem, hf⟩ | ⟨hmem, hc⟩
  · exact Or.inl ⟨hmem, Tile.update_fades t _ dt hdt hf⟩
  · exact Or.inr ⟨hmem, Tile.update_clean t dt hc⟩

theorem marked_runWaiting (M : List (Nat × Nat)) (fs : List (ℚ × Rand)) :
    ∀ gm gm' : Game, (∀ f ∈ fs, 0 ≤ f.1) → Marked M gm → runWaiting fs gm = some gm' →
      Marked M gm' := by
  induction fs with
  | nil =>
      intro gm gm' _ h hrun
      simp only [runWaiting, Option.some.injEq] at hrun
      rw [← hrun]
      exact h
  | cons f fs ih =>
      intro gm gm' hdt h hrun
      simp only [runWaiting] at hrun
      split at hrun
      · next hw =>
          obtain ⟨gm1, h1, hm1⟩ := marked_wait M f.1 (hdt f (List.mem_cons_self f fs)) f.2 gm h hw
          rw [h1] at hrun
          exact ih gm1 gm' (fun f' hf' => hdt f' (List.mem_cons_of_mem f hf')) hm1 hrun
      · cases hrun

/-- The FADING step: exactly the marked cells are cleared. -/
theorem marked_step (M : List (Nat × Nat)) (dt : ℚ) (hdt : 0 ≤ dt) (rnd : Rand) (gm : Game)
    (h : Marked M gm) (hw : gm.waitTimer ≤ 0) :
    ∃ gm', update dt rnd gm = some gm' ∧ gm'.state = State.FALLING ∧
      ∀ r c : Fin 9, (gm'.grid r c = none ↔ (r.val, c.val) ∈ M) := by
  refine ⟨_, update_fading dt rnd gm (not_lt.mpr hw) h.1, rfl, ?_⟩
  intro r c
  dsimp only
  rw [clearFaded_apply, updateTiles_apply]
  obtain ⟨t, ht, hcases⟩ := h.2 r c
  rw [ht]
  rcases hcases with ⟨hmem, hf⟩ | ⟨hmem, hc⟩
  · have := Tile.update_faded t _ dt hdt hw hf
    simp [this, hmem]
  · have := Tile.clean_alpha _ (Tile.update_clean t dt hc)
    simp [this, hmem]


theorem runWaiting_timer (fs : List (ℚ × Rand)) :
    ∀ gm gm' : Game, runWaiting fs gm = some gm' →
      gm'.waitTimer = gm.waitTimer - (fs.map Prod.fst).sum := by
  induction fs with
  | nil =>
      intro gm gm' hrun
      simp only [runWaiting, Option.some.injEq] at hrun
      rw [← hrun]
      simp
  | cons f fs ih =>
      intro gm gm' hrun
      simp only [runWaiting] at hrun
      split at hrun
      · next hw =>
          rw [update_wait f.1 f.2 gm hw] at hrun
          have := ih _ gm' hrun
          rw [this, List.map_cons, List.sum_cons]
          dsimp only
          ring
      · cases hrun

/-- C15. Take a reachable state in which the MATCHING step finds at least one
run. That frame marks exactly the tiles at the cells of `getMatches` as fading,
enters FADING and sets `waitTimer = FADE_TIME`. After any run of waiting frames
with `dt >= 0` that brings the timer to 0 or below, the game is still in FADING,
every cell still holds its tile, every marked tile has `alpha <= 0` and every
unmarked tile has `alpha = 1`; and the next frame with `dt >= 0`, which executes
the FADING step, empties exactly the cells that `getMatches` returned at the
MATCHING step, removes no other tile, and enters FALLING. Times and opacities
are exact rationals. -/
theorem fading_clears_matches (gm : Game) (hr : Reachable gm)
    (hs : gm.state = State.MATCHING) (hw : gm.waitTimer ≤ 0) (hm : getMatches gm.grid ≠ [])
    (dt0 : ℚ) (rnd0 : Rand) :
    ∃ gm1, update dt0 rnd0 gm = some gm1 ∧ gm1.state = State.FADING ∧
      gm1.waitTimer = FADE_TIME ∧
      (∀ r c : Fin 9, ∃ t, gm1.grid r c = some t ∧
        (t.isFading = true ↔ (r.val, c.val) ∈ getMatches gm.grid)) ∧
      ∀ (fs : List (ℚ × Rand)) (gm2 : Game), (∀ f ∈ fs, 0 ≤ f.1) →
        runWaiting fs gm1 = some gm2 → gm2.waitTimer ≤ 0 →
          gm2.state = State.FADING ∧
          gm2.waitTimer = FADE_TIME - (fs.map Prod.fst).sum ∧
          (∀ r c : Fin 9, ∃ t, gm2.grid r c = some t ∧
            ((r.val, c.val) ∈ getMatches gm.grid → t.isFading = true ∧ t.alpha ≤ 0) ∧
            ((r.val, c.val) ∉ getMatches gm.grid → t.isFading = false ∧ t.alpha = 1)) ∧
          ∀ (dt : ℚ) (rnd : Rand), 0 ≤ dt →
            ∃ gm3, update dt rnd gm2 = some gm3 ∧ gm3.state = State.FALLING ∧
              ∀ r c : Fin 9, (gm3.grid r c = none ↔ (r.val, c.val) ∈ getMatches gm.grid) := by
  have hfull : gm.grid.Full := by
    have hinv := reachable_inv gm hr
    unfold MachineInv at hinv
    rw [hs] at hinv
    exact hinv
  have hclean : AllTiles Tile.Clean gm.grid :=
    clean_of_fadeInv gm (reachable_fadeInv gm hr) (by rw [hs]; simp)
  obtain ⟨gm1, h1, ht1, hm1⟩ := matching_marks dt0 rnd0 gm hs hw hm hfull hclean
  refine ⟨gm1, h1, hm1.1, ht1, ?_, ?_⟩
  · intro r c
    obtain ⟨t, ht, hcases⟩ := hm1.2 r c
    refine ⟨t, ht, ?_⟩
    rcases hcases with ⟨hmem, hf⟩ | ⟨hmem, hc⟩
    · exact ⟨fun _ => hmem, fun _ => hf.1⟩
    · constructor
      · intro hfad
        rw [hc.1] at hfad
        cases hfad
      · intro h'
        exact absurd h' hmem
  · intro fs gm2 hdt hrun hw2
    have hm2 := marked_runWaiting _ fs gm1 gm2 hdt hm1 hrun
    have htimer := runWaiting_timer fs gm1 gm2 hrun
    rw [ht1] at htimer
    refine ⟨hm2.1, htimer, ?_, ?_⟩
    · intro r c
      obtain ⟨t, ht, hcases⟩ := hm2.2 r c
      refine ⟨t, ht, ?_, ?_⟩
      · intro hmem
        rcases hcases with ⟨_, hf⟩ | ⟨hn, _⟩
        · exact ⟨hf.1, Tile.fades_alpha t _ hw2 hf⟩
        · exact absurd hmem hn
      · intro hn
        rcases hcases with ⟨hmem, _⟩ | ⟨_, hc⟩
        · exact absurd hmem hn
        · exact hc
    · intro dt rnd hdt'
      exact marked_step _ dt hdt' rnd gm2 hm2 hw2

theorem matchDue_matches :
    getMatches matchDue.grid = getMatches (swapCells matchStart.grid 3 5 4 5) := by
  have hw : matchClicked.waitTimer > 0 := by rw [matchClicked_fields.2.1]; norm_num
  have h := matchDue_eq
  rw [update_wait _ _ _ hw] at h
  rw [← Option.some.inj h]
  dsimp only
  rw [getMatches_updateTiles, matchClicked_fields.2.2]

set_option maxRecDepth 100000 in
theorem matchStart_swap_mem :
    (4, 3) ∈ getMatches (swapCells matchStart.grid 3 5 4 5) ∧
      (0, 0) ∉ getMatches (swapCells matchStart.grid 3 5 4 5) := by
  decide

theorem fading_clears_matches_witness :
    ∃ gm1 gm2 gm3, update (1 / 60) demoRand matchDue = some gm1 ∧
      runWaiting [(2 / 5, demoRand)] gm1 = some gm2 ∧
      update (1 / 60) demoRand gm2 = some gm3 ∧
      gm3.state = State.FALLING ∧ gm3.grid 4 3 = none ∧ gm3.grid 0 0 ≠ none := by
  obtain ⟨gm1, h1, _, ht1, _, hrest⟩ := fading_clears_matches matchDue reachable_matchDue
    matchDue_fields.1 matchDue_fields.2.1 matchDue_fields.2.2 (1 / 60) demoRand
  have hw1 : gm1.waitTimer > 0 := by rw [ht1]; norm_num [FADE_TIME]
  have hrun : runWaiting [(2 / 5, demoRand)] gm1 =
      some { gm1 with grid := updateTiles (2 / 5) gm1.grid,
                      waitTimer := gm1.waitTimer - 2 / 5 } := by
    simp only [runWaiting]
    rw [if_pos hw1, update_wait _ _ _ hw1]
    rfl
  obtain ⟨_, _, _, hstep⟩ := hrest [(2 / 5, demoRand)] _
    (by intro f hf; simp only [List.mem_singleton] at hf; rw [hf]; norm_num) hrun
    (by dsimp only; rw [ht1]; norm_num [FADE_TIME])
  obtain ⟨gm3, h3, hs3, hcells⟩ := hstep (1 / 60) demoRand (by norm_num)
  refine ⟨gm1, _, gm3, h1, hrun, h3, hs3, ?_, ?_⟩
  · rw [hcells 4 3, matchDue_matches]
    exact matchStart_swap_mem.1
  · rw [Ne, hcells 0 0, matchDue_matches]
    exact matchStart_swap_mem.2

end Match3

namespace Glide

/-! ## The terrain layer -/

theorem addNode_nodes (noise : ℚ → ℚ) (rnd : Draws) (l : TerrainLayer) :
    ∃ nd : Node, 0 ≤ nd.x ∧ (TerrainLayer.addNode noise rnd l).1.nodes = l.nodes ++ [nd] := by
  refine ⟨{ x := l.nodes.length * TERRAIN_SAMPLE_STEP,
            y := LOGICAL_HEIGHT - l.config.offset -
              noise ((l.startX + l.nodes.length * TERRAIN_SAMPLE_STEP) * l.config.freq) *
                l.config.amp }, ?_, ?_⟩
  · show (0 : ℚ) ≤ l.nodes.length * TERRAIN_SAMPLE_STEP
    unfold TERRAIN_SAMPLE_STEP
    positivity
  · unfold TerrainLayer.addNode
    dsimp only
    split
    · split <;> rfl
    · rfl


/-- The loop of `update` on a node list made of the nodes `orig` still to be
tested followed by nodes `added` that are on screen: it ends within
`orig.length + 1` tests, having replaced a prefix of `orig`, all of it off
screen, by as many new nodes at the right. -/
theorem scrollLoop_spec (noise : ℚ → ℚ) (orig : List Node) :
    ∀ (added : List Node) (l : TerrainLayer) (rnd : Draws),
      l.nodes = orig ++ added → (∀ nd ∈ added, -TERRAIN_SAMPLE_STEP ≤ nd.x) →
      ∃ (k : Nat) (fresh : List Node) (res : TerrainLayer × Draws),
        (∀ fuel, orig.length < fuel → scrollLoop noise fuel (l, rnd) = some res) ∧
        k ≤ orig.length ∧ fresh.length = k ∧
        res.1.nodes = orig.drop k ++ added ++ fresh ∧
        (∀ nd ∈ orig.take k, nd.x < -TERRAIN_SAMPLE_STEP) ∧
        (∀ nd, res.1.nodes.head? = some nd → -TERRAIN_SAMPLE_STEP ≤ nd.x) := by
  induction orig with
  | nil =>
      intro added l rnd hl hadd
      refine ⟨0, [], (l, rnd), ?_, le_refl _, rfl, by simpa using hl, by simp, ?_⟩
      · intro fuel hfuel
        obtain ⟨f, rfl⟩ : ∃ f, fuel = f + 1 := ⟨fuel - 1, by simp at hfuel; omega⟩
        simp only [scrollLoop]
        rw [hl]
        cases added with
        | nil => rfl
        | cons a as =>
            dsimp only [List.nil_append]
            rw [if_neg (not_lt.mpr (hadd a (List.mem_cons_self a as)))]
      · intro nd hnd
        rw [hl] at hnd
        cases added with
        | nil => simp at hnd
        | cons a as =>
            simp only [List.nil_append, List.head?_cons, Option.some.injEq] at hnd
            rw [← hnd]
            exact hadd a (List.mem_cons_self a as)
  | cons n rest ih =>
      intro added l rnd hl hadd
      by_cases hn : n.x < -TERRAIN_SAMPLE_STEP
      · obtain ⟨nd, hnd0, hnodes⟩ :=
          addNode_nodes noise rnd { l with nodes := rest ++ added }
        have hnd : -TERRAIN_SAMPLE_STEP ≤ nd.x := by
          unfold TERRAIN_SAMPLE_STEP
          linarith
        obtain ⟨k, fresh, res, hrun, hk, hlen, hres, hoff, hhead⟩ :=
          ih (added ++ [nd])
            (TerrainLayer.addNode noise rnd { l with nodes := rest ++ added }).1
            (TerrainLayer.addNode noise rnd { l with nodes := rest ++ added }).2
            (by rw [hnodes]; simp)
            (by
              intro x hx
              rcases List.mem_append.mp hx with hx | hx
              · exact hadd x hx
              · simp only [List.mem_singleton] at hx
                rw [hx]
                exact hnd)
        refine ⟨k + 1, nd :: fresh, res, ?_, by simp; omega, by simp [hlen], ?_, ?_, hhead⟩
        · intro fuel hfuel
          obtain ⟨f, rfl⟩ : ∃ f, fuel = f + 1 := ⟨fuel - 1, by simp at hfuel; omega⟩
          simp only [scrollLoop]
          rw [hl]
          dsimp only [List.cons_append]
          rw [if_pos hn]
          exact hrun f (by simp at hfuel; omega)
        · rw [hres]
          simp
        · intro x hx
          simp only [List.take_succ_cons, List.mem_cons] at hx
          rcases hx with rfl | hx
          · exact hn
          · exact hoff x hx
      · refine ⟨0, [], (l, rnd), ?_, Nat.zero_le _, rfl, by simpa using hl, by simp, ?_⟩
        · intro fuel hfuel
          obtain ⟨f, rfl⟩ : ∃ f, fuel = f + 1 := ⟨fuel - 1, by omega⟩
          simp only [scrollLoop]
          rw [hl]
          dsimp only [List.cons_append]
          rw [if_neg hn]
        · intro nd hnd
          rw [hl] at hnd
          simp only [List.cons_append, List.head?_cons, Option.some.injEq] at hnd
          rw [← hnd]
          exact not_lt.mp hn

/-- C16. For every terrain layer and every speed `vx`, `TerrainLayer.update(vx)`
terminates: its loop leaves within `nodes.length + 1` tests of its condition,
and any larger bound gives the same result. The number of nodes is unchanged:
a prefix of the scrolled nodes, every one of them with
`x < -TERRAIN_SAMPLE_STEP`, is discarded from the left and exactly as many new
nodes are appended at the right; afterwards the first node, if there is one,
has `x >= -TERRAIN_SAMPLE_STEP`. The hypothesis `vx >= 0` is not needed. -/
theorem terrain_update_spec (noise : ℚ → ℚ) (vx : ℚ) (rnd : Draws) (l : TerrainLayer) :
    ∃ (k : Nat) (fresh : List Node) (res : TerrainLayer × Draws),
      (∀ fuel, l.nodes.length < fuel → TerrainLayer.update noise fuel vx rnd l = some res) ∧
      res.1.nodes.length = l.nodes.length ∧
      k ≤ l.nodes.length ∧ fresh.length = k ∧
      res.1.nodes = (scrolled (vx * l.config.speed) l.nodes).drop k ++ fresh ∧
      (∀ nd ∈ (scrolled (vx * l.config.speed) l.nodes).take k, nd.x < -TERRAIN_SAMPLE_STEP) ∧
      (∀ nd, res.1.nodes.head? = some nd → -TERRAIN_SAMPLE_STEP ≤ nd.x) := by
  obtain ⟨k, fresh, res, hrun, hk, hlen, hres, hoff, hhead⟩ :=
    scrollLoop_spec noise (scrolled (vx * l.config.speed) l.nodes) []
      { l with startX := l.startX + vx * l.config.speed,
               nodes := scrolled (vx * l.config.speed) l.nodes,
               trees := l.trees.map fun t => { t with x := t.x - vx * l.config.speed } }
      rnd (by simp) (by simp)
  have hsl : (scrolled (vx * l.config.speed) l.nodes).length = l.nodes.length := by
    simp [scrolled]
  rw [hsl] at hk
  refine ⟨k, fresh,
    ({ res.1 with trees := res.1.trees.filter fun t => decide (t.x > -100) }, res.2),
    ?_, ?_, hk, hlen, ?_, hoff, hhead⟩
  · intro fuel hfuel
    unfold TerrainLayer.update
    dsimp only
    rw [hrun fuel (by rw [hsl]; exact hfuel)]
    rfl
  · show res.1.nodes.length = _
    rw [hres]
    simp only [List.append_nil, List.length_append, List.length_drop, hsl, hlen]
    omega
  · show res.1.nodes = _
    rw [hres]
    simp


theorem terrain_update_spec_witness :
    ∃ res, TerrainLayer.update (fun _ => 0) 4 20 (fun _ => 1 / 2) demoLayer = some res ∧
      res.1.nodes.length = 3 ∧ (∀ nd, res.1.nodes.head? = some nd → -15 ≤ nd.x) := by
  obtain ⟨_, _, res, h1, h2, _, _, _, _, h3⟩ :=
    terrain_update_spec (fun _ => 0) 20 (fun _ => 1 / 2) demoLayer
  exact ⟨res, h1 4 (by decide), h2, h3⟩

end Glide
